import Mathlib

/-!
# ares_parse_any_reply

A shallow embedding of `ares_parse_any_reply` from
`deps/c-ares/src/ares_parse_any_reply.c`, and theorems about it.

Conventions of the embedding.

* The message buffer `abuf` is a list of bytes; a pointer into it is the
  offset from `abuf`.  A read at offset `i` is defined only for `i < alen`
  (and inside the list); any other read makes the whole call `Outcome.fault`.
* A C string is represented by the list of its bytes before the terminating
  NUL, so `strlen` is `List.length`.
* The result chain is the list of its nodes, head first.  A node returned by
  `ares_malloc_data` has every field zero (`emptyReply`).
* Allocation succeeds, except that the one allocation the source checks (the
  SOA staging struct) is decided by a parameter.
* The name decompressor, `ares_expand_name` and the IPv6 printer are not part
  of the source file: they are parameters, gathered in `Env`.
-/

namespace AnyReply

/-- One octet of the message. -/
abbrev Byte := Fin 256

/-! ## Constants (nameser.h, ares.h) -/

def HFIXEDSZ : Nat := 12
def QFIXEDSZ : Nat := 4
def RRFIXEDSZ : Nat := 10

def C_IN : Nat := 1
def T_A : Nat := 1
def T_NS : Nat := 2
def T_CNAME : Nat := 5
def T_SOA : Nat := 6
def T_PTR : Nat := 12
def T_MX : Nat := 15
def T_TXT : Nat := 16
def T_AAAA : Nat := 28
def T_SRV : Nat := 33

def ARES_SUCCESS : Nat := 0
def ARES_ENODATA : Nat := 1
def ARES_EBADNAME : Nat := 8
def ARES_EBADRESP : Nat := 10
def ARES_ENOMEM : Nat := 15

def INET_ADDRSTRLEN : Nat := 16

/-! ## Data model -/

/-- The node `struct ares_any_reply`: `type` is the `char[16]` tag, `name` the
owner name (`none` is the NULL pointer), `data` and `length` the rendered
value; `next` is the position in the list. -/
structure Reply where
  type : List Byte
  name : Option (List Byte)
  data : List Byte
  length : Nat
  deriving DecidableEq, Repr

/-- A node as `ares_malloc_data(ARES_DATATYPE_ANY_REPLY)` returns it. -/
def emptyReply : Reply := ⟨[], none, [], 0⟩

/-- What one call of a name expansion function gives: the status and, when the
status is `ARES_SUCCESS`, the expanded name and the encoded length. -/
structure Expanded where
  status : Nat
  name : List Byte
  len : Nat
  deriving DecidableEq, Repr

/-- The collaborators of the decoder that are not in the source file. The two
expansion functions take the buffer, `alen` and the offset of the encoded
name. -/
structure Env where
  expand_name_for_response : List Byte → Nat → Nat → Expanded
  expand_name : List Byte → Nat → Nat → Expanded
  inet_ntop6 : List Byte → List Byte
  soa_alloc_ok : Bool

/-- The result of a call: `fault` when a byte outside `[0, alen)` was read,
otherwise the returned status and the out-parameter `*any_reply` (`none` when
the call did not write it). -/
inductive Outcome where
  | fault
  | ret (status : Nat) (any_reply : Option (List Reply))
  deriving DecidableEq, Repr

/-! ## Reading the buffer -/

/-- The byte at offset `i`, defined inside `[0, alen)` only. -/
def rd (abuf : List Byte) (alen : Nat) (i : Nat) : Option Byte :=
  if i < alen then abuf[i]? else none

/-- The `n` bytes from offset `off` on, read one by one. -/
def rd_bytes (abuf : List Byte) (alen : Nat) : Nat → Nat → Option (List Byte)
  | _, 0 => some []
  | off, n + 1 =>
    match rd abuf alen off with
    | none => none
    | some b =>
      match rd_bytes abuf alen (off + 1) n with
      | none => none
      | some bs => some (b :: bs)

/-- The macro `DNS__16BIT(p)`: `(p[0] << 8) | p[1]`. -/
def DNS__16BIT (abuf : List Byte) (alen : Nat) (p : Nat) : Option Nat :=
  match rd abuf alen p, rd abuf alen (p + 1) with
  | some b0, some b1 => some (b0.val * 256 + b1.val)
  | _, _ => none

/-- The macro `DNS__32BIT(p)`: the four bytes at `p`, big-endian. -/
def DNS__32BIT (abuf : List Byte) (alen : Nat) (p : Nat) : Option Nat :=
  match rd abuf alen p, rd abuf alen (p + 1), rd abuf alen (p + 2), rd abuf alen (p + 3) with
  | some b0, some b1, some b2, some b3 =>
    some (b0.val * 16777216 + b1.val * 65536 + b2.val * 256 + b3.val)
  | _, _, _, _ => none

def DNS_HEADER_QDCOUNT (abuf : List Byte) (alen : Nat) : Option Nat := DNS__16BIT abuf alen 4
def DNS_HEADER_ANCOUNT (abuf : List Byte) (alen : Nat) : Option Nat := DNS__16BIT abuf alen 6
def DNS_HEADER_NSCOUNT (abuf : List Byte) (alen : Nat) : Option Nat := DNS__16BIT abuf alen 8
def DNS_HEADER_ARCOUNT (abuf : List Byte) (alen : Nat) : Option Nat := DNS__16BIT abuf alen 10

def DNS_RR_TYPE (abuf : List Byte) (alen : Nat) (r : Nat) : Option Nat := DNS__16BIT abuf alen r
def DNS_RR_CLASS (abuf : List Byte) (alen : Nat) (r : Nat) : Option Nat := DNS__16BIT abuf alen (r + 2)
def DNS_RR_TTL (abuf : List Byte) (alen : Nat) (r : Nat) : Option Nat := DNS__32BIT abuf alen (r + 4)
def DNS_RR_LEN (abuf : List Byte) (alen : Nat) (r : Nat) : Option Nat := DNS__16BIT abuf alen (r + 8)

/-! ## Formatting -/

/-- The ASCII digit of `d % 10`. -/
def digitChar (d : Nat) : Byte := ⟨48 + d % 10, by omega⟩

/-- Decimal digits of `n`, most significant first, in front of `acc`. -/
def utoa_aux : Nat → Nat → List Byte → List Byte
  | 0, _, acc => acc
  | fuel + 1, n, acc =>
    if n < 10 then digitChar n :: acc
    else utoa_aux fuel (n / 10) (digitChar n :: acc)

/-- The conversion `%u`: `n` in unsigned decimal. -/
def utoa (n : Nat) : List Byte := utoa_aux (n + 1) n []

/-- The conversion `%hu`: the argument converted to `unsigned short`. -/
def hutoa (n : Nat) : List Byte := utoa (n % 65536)

/-- The bytes of a string literal. -/
def str (s : String) : List Byte := s.toList.map (fun c => Fin.ofNat c.toNat)

def SP : Byte := 32
def DOT : Byte := 46
def BAR : Byte := 124

/-- The string `snprintf(buf, size, ...)` leaves in `buf` when the complete
formatted text is `full`: at most `size - 1` characters of it. -/
def snprintf (size : Nat) (full : List Byte) : List Byte := full.take (size - 1)

/-- Modelled from the spec: `ares_inet_ntop(AF_INET, src, dst, size)`, which is
not in the source file; the spec has it give the "textual dotted-quad address"
of the 4 bytes at `src`. -/
def inet_ntop4 (b0 b1 b2 b3 : Byte) : List Byte :=
  utoa b0.val ++ [DOT] ++ utoa b1.val ++ [DOT] ++ utoa b2.val ++ [DOT] ++ utoa b3.val

/-! ## The type decoders -/

/-- How the branch of one record type leaves the loop body: `fault` on an
out-of-bounds read, `brk status` on `break`, and `fall status node` when
control reaches the code after the `if`/`else` chain, `node` being the
contents of `any_reply_current`. -/
inductive Dec where
  | fault
  | brk (status : Nat)
  | fall (status : Nat) (node : Reply)
  deriving DecidableEq, Repr

/-- Branch `T_A`. -/
def decode_A (abuf : List Byte) (alen aptr : Nat) (rr_name : List Byte) : Dec :=
  match rd abuf alen aptr, rd abuf alen (aptr + 1), rd abuf alen (aptr + 2),
      rd abuf alen (aptr + 3) with
  | some b0, some b1, some b2, some b3 =>
    let data := snprintf INET_ADDRSTRLEN (inet_ntop4 b0 b1 b2 b3)
    .fall ARES_SUCCESS ⟨snprintf 16 (str "A"), some rr_name, data, data.length⟩
  | _, _, _, _ => .fault

/-- Branches `T_CNAME`, `T_NS` and `T_PTR`, which differ in the tag only. -/
def decode_name (E : Env) (abuf : List Byte) (alen aptr : Nat) (rr_name : List Byte)
    (tag : String) : Dec :=
  let r := E.expand_name_for_response abuf alen aptr
  if r.status ≠ ARES_SUCCESS then .brk r.status
  else .fall r.status ⟨snprintf 16 (str tag), some rr_name, r.name, r.name.length⟩

/-- Branch `T_AAAA`. -/
def decode_AAAA (E : Env) (abuf : List Byte) (alen aptr : Nat) (rr_name : List Byte) : Dec :=
  match rd_bytes abuf alen aptr 16 with
  | some bs =>
    let data := E.inet_ntop6 bs
    .fall ARES_SUCCESS ⟨snprintf 16 (str "AAAA"), some rr_name, data, data.length⟩
  | none => .fault

/-- The `while` loop of branch `T_TXT`. `off` is `strptr - aptr`, which is
also `dataptr - data`. Every iteration adds at least 1 to `off`, so `rr_len`
iterations are enough and `fuel` never runs out (`txt_loop_fuel`). -/
def txt_loop (abuf : List Byte) (alen aptr rr_len : Nat) :
    Nat → Nat → List Byte → Nat → Option (List Byte × Nat)
  | 0, _, data, status => some (data, status)
  | fuel + 1, off, data, status =>
    if off < rr_len then
      match rd abuf alen (aptr + off) with
      | none => none
      | some b =>
        let substr_len := b.val
        if off + substr_len + 1 > rr_len then some (data, ARES_EBADRESP)
        else txt_loop abuf alen aptr rr_len fuel (off + substr_len + 1) (data.set off BAR) status
    else some (data, status)

/-- Branch `T_TXT`. -/
def decode_TXT (abuf : List Byte) (alen aptr rr_len : Nat) (rr_name : List Byte)
    (status : Nat) : Dec :=
  match rd_bytes abuf alen aptr rr_len with
  | none => .fault
  | some raw =>
    match txt_loop abuf alen aptr rr_len rr_len 0 raw status with
    | none => .fault
    | some (data, status) => .fall status ⟨snprintf 16 (str "TXT"), some rr_name, data, rr_len⟩

/-- Branch `T_SOA`. -/
def decode_SOA (E : Env) (abuf : List Byte) (alen aptr : Nat) (rr_name : List Byte) : Dec :=
  if ¬ E.soa_alloc_ok then .brk ARES_ENOMEM
  else
    let ns := E.expand_name_for_response abuf alen aptr
    if ns.status ≠ ARES_SUCCESS then .brk ARES_EBADRESP
    else
      let aptr2 := aptr + ns.len
      let hm := E.expand_name_for_response abuf alen aptr2
      if hm.status ≠ ARES_SUCCESS then .brk ARES_EBADRESP
      else
        let aptr2 := aptr2 + hm.len
        if aptr2 + 5 * 4 > alen then .brk ARES_EBADRESP
        else
          match DNS__32BIT abuf alen (aptr2 + 0 * 4), DNS__32BIT abuf alen (aptr2 + 1 * 4),
              DNS__32BIT abuf alen (aptr2 + 2 * 4), DNS__32BIT abuf alen (aptr2 + 3 * 4),
              DNS__32BIT abuf alen (aptr2 + 4 * 4) with
          | some serial, some refresh, some retry, some expire, some minttl =>
            let outmaxlen := ns.name.length + hm.name.length + 50 + 7
            let data := snprintf outmaxlen
              (ns.name ++ [SP] ++ hm.name ++ [SP] ++ utoa serial ++ [SP] ++ utoa refresh ++ [SP]
                ++ utoa retry ++ [SP] ++ utoa expire ++ [SP] ++ utoa minttl)
            .fall hm.status ⟨snprintf 16 (str "SOA"), some rr_name, data, data.length⟩
          | _, _, _, _, _ => .fault

/-- Branch `T_SRV`. -/
def decode_SRV (E : Env) (abuf : List Byte) (alen aptr rr_len : Nat) (rr_name : List Byte)
    (status : Nat) : Dec :=
  if rr_len ≥ 6 then
    match DNS__16BIT abuf alen aptr, DNS__16BIT abuf alen (aptr + 2),
        DNS__16BIT abuf alen (aptr + 4) with
    | some priority, some weight, some port =>
      let h := E.expand_name abuf alen (aptr + 6)
      if h.status ≠ ARES_SUCCESS then .brk h.status
      else
        let outmaxlen := h.name.length + 2 * 3 + 5
        let data := snprintf outmaxlen
          (utoa priority ++ [SP] ++ utoa weight ++ [SP] ++ utoa port ++ [SP] ++ h.name)
        .fall h.status ⟨snprintf 16 (str "SRV"), some rr_name, data, data.length⟩
    | _, _, _ => .fault
  else .fall status emptyReply

/-- Branch `T_MX`. -/
def decode_MX (E : Env) (abuf : List Byte) (alen aptr rr_len : Nat) (rr_name : List Byte) : Dec :=
  if rr_len < 2 then .brk ARES_EBADRESP
  else
    match DNS__16BIT abuf alen aptr with
    | some priority =>
      let mx := E.expand_name abuf alen (aptr + 2)
      if mx.status ≠ ARES_SUCCESS then .brk mx.status
      else
        let data := snprintf (mx.name.length + 5 + 2) (hutoa priority ++ [SP] ++ mx.name)
        .fall mx.status ⟨snprintf 16 (str "MX"), some rr_name, data, data.length⟩
    | none => .fault

/-- The final `else`: any other type, or a class other than `C_IN`. -/
def decode_unknown (abuf : List Byte) (alen aptr rr_len : Nat) (rr_name : List Byte)
    (rr_type rr_class status : Nat) : Dec :=
  let tag :=
    if rr_class = C_IN then snprintf 16 (str "UNK_IN_" ++ hutoa rr_type)
    else snprintf 16 (str "UNK_" ++ hutoa rr_class ++ str "_" ++ hutoa rr_type)
  match rd_bytes abuf alen aptr rr_len with
  | some raw => .fall status ⟨tag, some rr_name, raw, rr_len⟩
  | none => .fault

/-- The `if`/`else` chain on class and type, in the order of the source.
`status` is the value the variable has on entry. -/
def rr_decode (E : Env) (abuf : List Byte) (alen aptr : Nat) (rr_name : List Byte)
    (rr_type rr_class rr_len status : Nat) : Dec :=
  if rr_class = C_IN ∧ rr_type = T_A then decode_A abuf alen aptr rr_name
  else if rr_class = C_IN ∧ rr_type = T_CNAME then decode_name E abuf alen aptr rr_name "CNAME"
  else if rr_class = C_IN ∧ rr_type = T_AAAA then decode_AAAA E abuf alen aptr rr_name
  else if rr_class = C_IN ∧ rr_type = T_TXT then decode_TXT abuf alen aptr rr_len rr_name status
  else if rr_class = C_IN ∧ rr_type = T_SOA then decode_SOA E abuf alen aptr rr_name
  else if rr_class = C_IN ∧ rr_type = T_SRV then decode_SRV E abuf alen aptr rr_len rr_name status
  else if rr_class = C_IN ∧ rr_type = T_MX then decode_MX E abuf alen aptr rr_len rr_name
  else if rr_class = C_IN ∧ rr_type = T_NS then decode_name E abuf alen aptr rr_name "NS"
  else if rr_class = C_IN ∧ rr_type = T_PTR then decode_name E abuf alen aptr rr_name "PTR"
  else decode_unknown abuf alen aptr rr_len rr_name rr_type rr_class status

/-! ## The record walker -/

/-- The variables that live across iterations of the `for` loop: the cursor,
`status`, and the nodes of the chain in front of `any_reply_current`. At the
top of every iteration `any_reply_current` is a node nothing was written to. -/
structure WalkState where
  aptr : Nat
  status : Nat
  chain : List Reply
  deriving DecidableEq, Repr

/-- One iteration of the loop body: a faulting read, a `break`, or the end of
the body. -/
inductive Step where
  | fault
  | brk (st : WalkState)
  | next (st : WalkState)
  deriving DecidableEq, Repr

/-- The test `memcmp(aptr+1, "\x00\x29", 2) == 0`, which reads both bytes. -/
def opt_marker (abuf : List Byte) (alen aptr : Nat) : Option Bool :=
  match rd abuf alen (aptr + 1), rd abuf alen (aptr + 2) with
  | some b1, some b2 => some (b1.val = 0 ∧ b2.val = 41)
  | _, _ => none

/-- The body of the `for` loop. -/
def rr_step (E : Env) (abuf : List Byte) (alen : Nat) (st : WalkState) : Step :=
  match opt_marker abuf alen st.aptr with
  | none => .fault
  | some true => .brk st
  | some false =>
    let r := E.expand_name_for_response abuf alen st.aptr
    if r.status ≠ ARES_SUCCESS then .brk ⟨st.aptr, r.status, st.chain⟩
    else
      let aptr := st.aptr + r.len
      if aptr + RRFIXEDSZ > alen then .brk ⟨aptr, ARES_EBADRESP, st.chain⟩
      else
        match DNS_RR_TYPE abuf alen aptr, DNS_RR_CLASS abuf alen aptr,
            DNS_RR_LEN abuf alen aptr, DNS_RR_TTL abuf alen aptr with
        | some rr_type, some rr_class, some rr_len, some _ =>
          let aptr := aptr + RRFIXEDSZ
          if aptr + rr_len > alen then .brk ⟨aptr, ARES_EBADRESP, st.chain⟩
          else
            match rr_decode E abuf alen aptr r.name rr_type rr_class rr_len r.status with
            | .fault => .fault
            | .brk status => .brk ⟨aptr, status, st.chain⟩
            | .fall status node =>
              let aptr := aptr + rr_len
              let chain := if node.name.isSome then st.chain ++ [node] else st.chain
              if aptr > alen then .brk ⟨aptr, ARES_EBADRESP, chain⟩
              else .next ⟨aptr, status, chain⟩
        | _, _, _, _ => .fault

/-- The `for` loop with `n` iterations left; `none` is a faulting read. -/
def walk (E : Env) (abuf : List Byte) (alen : Nat) : Nat → WalkState → Option WalkState
  | 0, st => some st
  | n + 1, st =>
    match rr_step E abuf alen st with
    | .fault => none
    | .brk st' => some st'
    | .next st' => walk E abuf alen n st'

/-- The clean-up loop after the walk: the first node after the head whose
`name` is NULL is freed and the chain is cut in front of it. -/
def prune : List Reply → List Reply
  | [] => []
  | [n] => [n]
  | n :: m :: rest => if m.name.isNone then [n] else n :: prune (m :: rest)

/-- The head node's `name` is NULL. -/
def head_name_null (chain : List Reply) : Bool :=
  match chain with
  | [] => true
  | n :: _ => n.name.isNone

/-- The code after the `for` loop: the clean-up of the chain, whose last node
is `any_reply_current`, the `ARES_ENODATA` test and the return. -/
def finish (w : Option WalkState) : Outcome :=
  match w with
  | none => .fault
  | some st =>
    let chain := prune (st.chain ++ [emptyReply])
    let status :=
      if st.status = ARES_SUCCESS ∧ head_name_null chain then ARES_ENODATA
      else st.status
    .ret status (some chain)

/-- The function `ares_parse_any_reply(abuf, alen, any_reply)`. -/
def ares_parse_any_reply (E : Env) (abuf : List Byte) (alen : Int) : Outcome :=
  if alen < HFIXEDSZ then .ret ARES_EBADRESP none
  else
    let n := alen.toNat
    match DNS_HEADER_QDCOUNT abuf n, DNS_HEADER_ANCOUNT abuf n, DNS_HEADER_NSCOUNT abuf n,
        DNS_HEADER_ARCOUNT abuf n with
    | some qdcount, some ancount, some nscount, some arcount =>
      if qdcount ≠ 1 then .ret ARES_EBADRESP none
      else
        let q := E.expand_name_for_response abuf n HFIXEDSZ
        if q.status ≠ ARES_SUCCESS then .ret q.status none
        else if HFIXEDSZ + q.len + QFIXEDSZ > n then .ret ARES_EBADRESP none
        else
          let aptr := HFIXEDSZ + q.len + QFIXEDSZ
          finish (walk E abuf n (ancount + nscount + arcount) ⟨aptr, q.status, []⟩)
    | _, _, _, _ => .fault

/-! ## Vocabulary of the statements -/

/-- The state after `k` complete iterations of the loop, none of which left
it by `break`. -/
def reach (E : Env) (abuf : List Byte) (alen : Nat) : Nat → WalkState → Option WalkState
  | 0, st => some st
  | k + 1, st =>
    match rr_step E abuf alen st with
    | .next st' => reach E abuf alen k st'
    | _ => none

/-- The header and the question are accepted: the buffer holds a header, the
question count is 1, the section counts are `an`, `ns`, `ar`, the question name
expands and the question ends at `p` inside the buffer, where the walk starts. -/
structure Framed (E : Env) (abuf : List Byte) (alen an ns ar p : Nat) : Prop where
  hsz : HFIXEDSZ ≤ alen
  qd : DNS_HEADER_QDCOUNT abuf alen = some 1
  an : DNS_HEADER_ANCOUNT abuf alen = some an
  ns : DNS_HEADER_NSCOUNT abuf alen = some ns
  ar : DNS_HEADER_ARCOUNT abuf alen = some ar
  qname : (E.expand_name_for_response abuf alen HFIXEDSZ).status = ARES_SUCCESS
  start : p = HFIXEDSZ + (E.expand_name_for_response abuf alen HFIXEDSZ).len + QFIXEDSZ
  fits : p ≤ alen

/-- At cursor `p` the walker decodes a record up to its data: the bytes at
`p + 1` and `p + 2` are not the OPT marker, the owner name expands to `owner`,
type, class and RDLENGTH are `rr_type`, `rr_class`, `rr_len`, and the RDATA
starts at `d` and ends inside the buffer. -/
structure RRAt (E : Env) (abuf : List Byte) (alen p : Nat) (owner : List Byte)
    (rr_type rr_class rr_len d : Nat) : Prop where
  opt : opt_marker abuf alen p = some false
  ok : (E.expand_name_for_response abuf alen p).status = ARES_SUCCESS
  nm : (E.expand_name_for_response abuf alen p).name = owner
  ty : DNS_RR_TYPE abuf alen (p + (E.expand_name_for_response abuf alen p).len) = some rr_type
  cl : DNS_RR_CLASS abuf alen (p + (E.expand_name_for_response abuf alen p).len) = some rr_class
  ln : DNS_RR_LEN abuf alen (p + (E.expand_name_for_response abuf alen p).len) = some rr_len
  dat : d = p + (E.expand_name_for_response abuf alen p).len + RRFIXEDSZ
  fits : d + rr_len ≤ alen

/-! ## A concrete name decompressor

The theorems below hold for every `Env`. To run the decoder on concrete
messages an instance is needed; this one follows labels and compression
pointers. -/

/-- Modelled from the spec: the Name Decompressor (`ares_expand_name`), which is
not in the source file: "pointer-following label decoder". The labels of the
name at offset `p`, each followed by a dot; `none` when the encoding is bad. -/
def expand_labels (abuf : List Byte) (alen : Nat) : Nat → Nat → Option (List Byte)
  | 0, _ => none
  | fuel + 1, p =>
    match rd abuf alen p with
    | none => none
    | some b =>
      if b.val = 0 then some []
      else if b.val ≥ 192 then
        match rd abuf alen (p + 1) with
        | none => none
        | some b2 => expand_labels abuf alen fuel ((b.val - 192) * 256 + b2.val)
      else if b.val ≥ 64 then none
      else
        match rd_bytes abuf alen (p + 1) b.val, expand_labels abuf alen fuel (p + 1 + b.val) with
        | some l, some rest => some (l ++ [DOT] ++ rest)
        | _, _ => none

/-- Modelled from the spec: the "consumed byte length" the Name Decompressor
returns, the encoded length of the name at offset `p` up to the root label or
the first compression pointer. -/
def encoded_len (abuf : List Byte) (alen : Nat) : Nat → Nat → Option Nat
  | 0, _ => none
  | fuel + 1, p =>
    match rd abuf alen p with
    | none => none
    | some b =>
      if b.val = 0 then some 1
      else if b.val ≥ 192 then some 2
      else if b.val ≥ 64 then none
      else
        match encoded_len abuf alen fuel (p + 1 + b.val) with
        | some n => some (1 + b.val + n)
        | none => none

/-- Modelled from the spec: `ares_expand_name`; the trailing dot is dropped and
a bad encoding gives `bad`. -/
def label_expand (bad : Nat) (abuf : List Byte) (alen p : Nat) : Expanded :=
  match expand_labels abuf alen alen p, encoded_len abuf alen alen p with
  | some name, some len => ⟨ARES_SUCCESS, name.dropLast, len⟩
  | _, _ => ⟨bad, [], 0⟩

/-- An environment for concrete messages: both expansion functions follow
labels and pointers, `ares__expand_name_for_response` reporting a bad name as
`ARES_EBADRESP`; the SOA allocation succeeds. -/
def sampleEnv : Env where
  expand_name_for_response := label_expand ARES_EBADRESP
  expand_name := label_expand ARES_EBADNAME
  inet_ntop6 := fun _ => []
  soa_alloc_ok := true

/-- A header (ID 0x1234, flags 0x8180, one question, `an` answers) and the
question `example.com ANY IN`: 29 bytes. -/
def hdrq (an : Byte) : List Byte :=
  [0x12, 0x34, 0x81, 0x80, 0, 1, 0, an, 0, 0, 0, 0,
   7, 101, 120, 97, 109, 112, 108, 101, 3, 99, 111, 109, 0, 0, 255, 0, 1]

/-- The owner `example.com` as a pointer to offset 12, then type, class IN,
TTL 3600 and RDLENGTH. -/
def rrhead (ty rdlen : Byte) : List Byte :=
  [0xC0, 0x0C, 0, ty, 0, 1, 0, 0, 0x0E, 0x10, 0, rdlen]

/-- The message with the one record `example.com A 93.184.216.34`. -/
def msgA : List Byte := hdrq 1 ++ rrhead 1 4 ++ [93, 184, 216, 34]

/-- The RDATA of a TXT record that holds the strings `ss`: every string behind
a byte that gives its length. -/
def txt_rdata : List (List Byte) → List Byte
  | [] => []
  | s :: ss => Fin.ofNat s.length :: (s ++ txt_rdata ss)

/-- The strings `ss`, each behind a `|`. -/
def txt_render : List (List Byte) → List Byte
  | [] => []
  | s :: ss => BAR :: (s ++ txt_render ss)

/-- The message with the one record `example.com TXT "ab" "xyz"`. -/
def msgTXT : List Byte := hdrq 1 ++ rrhead 16 7 ++ [2, 97, 98, 3, 120, 121, 122]

/-- The message with the one record `example.com SOA ns1.example.com
admin.example.com 2024010100 3600 900 604800 300`, both names compressed. -/
def msgSOA : List Byte :=
  hdrq 1 ++ rrhead 6 34 ++
    [3, 110, 115, 49, 0xC0, 0x0C, 5, 97, 100, 109, 105, 110, 0xC0, 0x0C,
     120, 163, 241, 116, 0, 0, 14, 16, 0, 0, 3, 132, 0, 9, 58, 128, 0, 0, 1, 44]

/-- The message with the one record `example.com SRV 10 100 5060
sip.example.com`, the target compressed. -/
def msgSRV : List Byte :=
  hdrq 1 ++ rrhead 33 12 ++ [0, 10, 0, 100, 19, 196, 3, 115, 105, 112, 0xC0, 0x0C]

/-- The message with the one record `example.com MX 10 mail.example.com`, the
exchange compressed. -/
def msgMX : List Byte :=
  hdrq 1 ++ rrhead 15 9 ++ [0, 10, 4, 109, 97, 105, 108, 0xC0, 0x0C]

/-- The message with one record of type 65535 in class 65534 and the RDATA
`de ad 00 ef`. -/
def msgUNK : List Byte :=
  hdrq 1 ++ [0xC0, 0x0C, 255, 255, 255, 254, 0, 0, 0x0E, 0x10, 0, 4] ++ [0xDE, 0xAD, 0, 0xEF]

/-- The one record `example.com TXT` with the 3-byte RDATA `05 'a' 'b'`, whose
length byte 5 reaches past the RDATA. -/
def msgBadTXT : List Byte := hdrq 1 ++ rrhead 16 3 ++ [5, 97, 98]

/-- The TXT record of `msgBadTXT` followed by `example.com A 93.184.216.34`;
two answers. -/
def msgBadTXTthenA : List Byte :=
  hdrq 2 ++ rrhead 16 3 ++ [5, 97, 98] ++ rrhead 1 4 ++ [93, 184, 216, 34]

/-- The header and the question `example.com ANY IN` with no record at all. -/
def msgEmpty : List Byte := hdrq 0

/-- The message `msgA` with the question count of the header set to 0. -/
def msgNoQuestion : List Byte :=
  [0x12, 0x34, 0x81, 0x80, 0, 0, 0, 1, 0, 0, 0, 0] ++ msgA.drop 12

/-- From cursor `p` on the buffer holds records that the walker decodes one
after the other, without error, to the nodes `nodes`, and the record after
them starts at `q`: every record is decoded up to its data (`RRAt`), its
branch fills the node with status `ARES_SUCCESS` and the owner name, and the
next record starts `rr_len` bytes after the start of the RDATA. -/
def Decodes (E : Env) (abuf : List Byte) (alen : Nat) : Nat → List Reply → Nat → Prop
  | p, [], q => q = p
  | p, node :: rest, q =>
    ∃ owner rr_type rr_class rr_len d, RRAt E abuf alen p owner rr_type rr_class rr_len d ∧
      rr_decode E abuf alen d owner rr_type rr_class rr_len ARES_SUCCESS
        = .fall ARES_SUCCESS node ∧
      node.name = some owner ∧ Decodes E abuf alen (d + rr_len) rest q

/-- A header with the section counts `an`, `ns`, `ar` and the question
`example.com ANY IN`: 29 bytes. -/
def hdrq3 (an ns ar : Byte) : List Byte :=
  [0x12, 0x34, 0x81, 0x80, 0, 1, 0, an, 0, ns, 0, ar,
   7, 101, 120, 97, 109, 112, 108, 101, 3, 99, 111, 109, 0, 0, 255, 0, 1]

/-- The answer `example.com A 93.184.216.34`, then an OPT pseudo-record (root
owner, type 41, UDP size 4096, no options) and after it an MX record, which is
not decoded. -/
def msgOPT : List Byte :=
  hdrq3 1 0 2 ++ rrhead 1 4 ++ [93, 184, 216, 34] ++
    [0, 0, 41, 16, 0, 0, 0, 0, 0, 0, 0] ++
    rrhead 15 9 ++ [0, 10, 4, 109, 97, 105, 108, 0xC0, 0x0C]

/-- Three answers: `example.com A 93.184.216.34`, an SRV record with the 4-byte
RDATA `00 0A 00 64`, and `example.com MX 10 mail.example.com`. -/
def msgShortSRV : List Byte :=
  hdrq3 3 0 0 ++ rrhead 1 4 ++ [93, 184, 216, 34] ++
    rrhead 33 4 ++ [0, 10, 0, 100] ++
    rrhead 15 9 ++ [0, 10, 4, 109, 97, 105, 108, 0xC0, 0x0C]

/-- The message `msgShortSRV` without its SRV record; two answers. -/
def msgNoSRV : List Byte :=
  hdrq3 2 0 0 ++ rrhead 1 4 ++ [93, 184, 216, 34] ++
    rrhead 15 9 ++ [0, 10, 4, 109, 97, 105, 108, 0xC0, 0x0C]

/-- Three answers: `example.com A 93.184.216.34`, an MX record with the 1-byte
RDATA `00`, and `example.com A 10.0.0.1`. -/
def msgShortMX : List Byte :=
  hdrq3 3 0 0 ++ rrhead 1 4 ++ [93, 184, 216, 34] ++
    rrhead 15 1 ++ [0] ++ rrhead 1 4 ++ [10, 0, 0, 1]

/-- One answer: an A record with RDLENGTH 0, at the end of the message. -/
def msgEmptyA : List Byte := hdrq3 1 0 0 ++ rrhead 1 0

/-- Two answers: an A record with RDLENGTH 0, then `example.com A 10.0.0.1`. -/
def msgEmptyAthenA : List Byte :=
  hdrq3 2 0 0 ++ rrhead 1 0 ++ rrhead 1 4 ++ [10, 0, 0, 1]

/-- One answer: an AAAA record with the 4-byte RDATA `0A 00 00 01`, at the end
of the message. -/
def msgShortAAAA : List Byte := hdrq3 1 0 0 ++ rrhead 28 4 ++ [10, 0, 0, 1]

/-- The places where the decoder calls a name expansion function. -/
inductive Site where
  | question
  | owner
  | cname_ns_ptr
  | soa_nsname
  | soa_hostmaster
  | srv_target
  | mx_exchange
  deriving DecidableEq, Repr

/-- The walker is in state `st` at the top of an iteration: the header and the
question were accepted and `st` is the state after `k` complete iterations,
with a counted record left. -/
def Reached (E : Env) (abuf : List Byte) (alen : Nat) (st : WalkState) : Prop :=
  ∃ an ns ar p0 k, Framed E abuf alen an ns ar p0 ∧ k < an + ns + ar ∧
    reach E abuf alen k ⟨p0, ARES_SUCCESS, []⟩ = some st

/-- The decoder makes the call of site `s` and the call returns the status
`e`: for the question before the walk, for the other sites in the iteration
that starts in state `st`. -/
def call_returns (E : Env) (abuf : List Byte) (alen : Nat) (st : WalkState) (e : Nat) :
    Site → Prop
  | .question =>
    HFIXEDSZ ≤ alen ∧ DNS_HEADER_QDCOUNT abuf alen = some 1 ∧
      (E.expand_name_for_response abuf alen HFIXEDSZ).status = e
  | .owner =>
    Reached E abuf alen st ∧ opt_marker abuf alen st.aptr = some false ∧
      (E.expand_name_for_response abuf alen st.aptr).status = e
  | .cname_ns_ptr =>
    Reached E abuf alen st ∧ ∃ owner rr_type rr_len d,
      RRAt E abuf alen st.aptr owner rr_type C_IN rr_len d ∧
      (rr_type = T_CNAME ∨ rr_type = T_NS ∨ rr_type = T_PTR) ∧
      (E.expand_name_for_response abuf alen d).status = e
  | .soa_nsname =>
    Reached E abuf alen st ∧ ∃ owner rr_len d,
      RRAt E abuf alen st.aptr owner T_SOA C_IN rr_len d ∧ E.soa_alloc_ok = true ∧
      (E.expand_name_for_response abuf alen d).status = e
  | .soa_hostmaster =>
    Reached E abuf alen st ∧ ∃ owner rr_len d,
      RRAt E abuf alen st.aptr owner T_SOA C_IN rr_len d ∧ E.soa_alloc_ok = true ∧
      (E.expand_name_for_response abuf alen d).status = ARES_SUCCESS ∧
      (E.expand_name_for_response abuf alen
        (d + (E.expand_name_for_response abuf alen d).len)).status = e
  | .srv_target =>
    Reached E abuf alen st ∧ ∃ owner rr_len d,
      RRAt E abuf alen st.aptr owner T_SRV C_IN rr_len d ∧ 6 ≤ rr_len ∧
      (E.expand_name abuf alen (d + 6)).status = e
  | .mx_exchange =>
    Reached E abuf alen st ∧ ∃ owner rr_len d,
      RRAt E abuf alen st.aptr owner T_MX C_IN rr_len d ∧ 2 ≤ rr_len ∧
      (E.expand_name abuf alen (d + 2)).status = e

/-- The status `ares_parse_any_reply` returns when the call of site `s` gave
the error `e`: `e` itself, except in the SOA branch, whose two calls are
followed by `status = ARES_EBADRESP`. -/
def status_after : Site → Nat → Nat
  | .soa_nsname, _ => ARES_EBADRESP
  | .soa_hostmaster, _ => ARES_EBADRESP
  | _, e => e

/-- The environment `sampleEnv` in which the name expansion called at offset
`off` runs out of memory and returns `ARES_ENOMEM`. -/
def oomEnv (off : Nat) : Env where
  expand_name_for_response := fun abuf alen p =>
    if p = off then ⟨ARES_ENOMEM, [], 0⟩ else label_expand ARES_EBADRESP abuf alen p
  expand_name := fun abuf alen p =>
    if p = off then ⟨ARES_ENOMEM, [], 0⟩ else label_expand ARES_EBADNAME abuf alen p
  inet_ntop6 := fun _ => []
  soa_alloc_ok := true

/-- The TXT record of `msgBadTXT`, whose length byte 5 reaches past its 3-byte
RDATA, followed by an SRV record with the 4-byte RDATA `00 0A 00 64`; two
answers. Without the SRV record this is the message `msgBadTXT`. -/
def msgBadTXTthenShortSRV : List Byte :=
  hdrq3 2 0 0 ++ rrhead 16 3 ++ [5, 97, 98] ++ rrhead 33 4 ++ [0, 10, 0, 100]

/-! # Theorems -/

/-! ## Reads -/

theorem rd_eq_some_iff {abuf : List Byte} {alen i : Nat} {b : Byte} :
    rd abuf alen i = some b ↔ i < alen ∧ abuf[i]? = some b := by
  unfold rd
  split <;> simp [*]

theorem rd_isSome_of_le {abuf : List Byte} {alen i j : Nat} {b : Byte}
    (h : rd abuf alen j = some b) (hij : i ≤ j) : ∃ c, rd abuf alen i = some c := by
  rw [rd_eq_some_iff] at h
  obtain ⟨h1, h2⟩ := h
  have hj : j < abuf.length := by
    rcases Nat.lt_or_ge j abuf.length with h | h
    · exact h
    · rw [List.getElem?_eq_none h] at h2; cases h2
  have hi : i < abuf.length := by omega
  refine ⟨abuf[i], ?_⟩
  rw [rd_eq_some_iff]
  exact ⟨by omega, List.getElem?_eq_getElem hi⟩

theorem DNS__16BIT_eq_some {abuf : List Byte} {alen p v : Nat}
    (h : DNS__16BIT abuf alen p = some v) :
    ∃ b0 b1, rd abuf alen p = some b0 ∧ rd abuf alen (p + 1) = some b1 ∧
      v = b0.val * 256 + b1.val := by
  unfold DNS__16BIT at h
  split at h
  · rename_i b0 b1 h0 h1
    exact ⟨b0, b1, h0, h1, by simpa using h.symm⟩
  · cases h

theorem DNS__16BIT_lt {abuf : List Byte} {alen p v : Nat}
    (h : DNS__16BIT abuf alen p = some v) : v < 65536 := by
  obtain ⟨b0, b1, -, -, rfl⟩ := DNS__16BIT_eq_some h
  have := b0.isLt
  have := b1.isLt
  omega

theorem DNS__32BIT_isSome {abuf : List Byte} {alen p : Nat} {b : Byte}
    (h : rd abuf alen (p + 3) = some b) : ∃ v, DNS__32BIT abuf alen p = some v := by
  obtain ⟨c0, h0⟩ := rd_isSome_of_le h (show p ≤ p + 3 by omega)
  obtain ⟨c1, h1⟩ := rd_isSome_of_le h (show p + 1 ≤ p + 3 by omega)
  obtain ⟨c2, h2⟩ := rd_isSome_of_le h (show p + 2 ≤ p + 3 by omega)
  exact ⟨c0.val * 16777216 + c1.val * 65536 + c2.val * 256 + b.val,
    by simp [DNS__32BIT, h0, h1, h2, h]⟩

/-! ## The frame and one step -/

theorem parse_of_framed {E : Env} {abuf : List Byte} {alen an ns ar p : Nat}
    (hf : Framed E abuf alen an ns ar p) :
    ares_parse_any_reply E abuf (alen : Int) =
      finish (walk E abuf alen (an + ns + ar) ⟨p, ARES_SUCCESS, []⟩) := by
  have h1 : ¬ ((alen : Int) < (HFIXEDSZ : Nat)) := by
    have := hf.hsz
    omega
  have h2 : ¬ (HFIXEDSZ + (E.expand_name_for_response abuf alen HFIXEDSZ).len + QFIXEDSZ > alen) := by
    have := hf.fits
    have := hf.start
    omega
  unfold ares_parse_any_reply
  simp only [h1, if_false, Int.toNat_ofNat, hf.qd, hf.an, hf.ns, hf.ar, hf.qname, ne_eq,
    not_true_eq_false, h2, hf.start]

theorem rr_step_of_RRAt {E : Env} {abuf : List Byte} {alen p : Nat} {owner : List Byte}
    {rr_type rr_class rr_len d : Nat} (h : RRAt E abuf alen p owner rr_type rr_class rr_len d)
    (st : WalkState) (hp : st.aptr = p) :
    rr_step E abuf alen st =
      match rr_decode E abuf alen d owner rr_type rr_class rr_len ARES_SUCCESS with
      | .fault => .fault
      | .brk status => .brk ⟨d, status, st.chain⟩
      | .fall status node =>
        .next ⟨d + rr_len, status, if node.name.isSome then st.chain ++ [node] else st.chain⟩ := by
  have hd := h.dat
  subst hd
  obtain ⟨b8, b9, -, h9, -⟩ := DNS__16BIT_eq_some h.ln
  have hlt : p + (E.expand_name_for_response abuf alen p).len + 9 < alen := by
    have := (rd_eq_some_iff.mp h9).1
    omega
  obtain ⟨c, hc⟩ := rd_isSome_of_le h9
    (show p + (E.expand_name_for_response abuf alen p).len + 4 + 3 ≤ _ by omega)
  obtain ⟨ttl, httl⟩ := DNS__32BIT_isSome hc
  have h1 : ¬ (p + (E.expand_name_for_response abuf alen p).len + RRFIXEDSZ > alen) := by
    unfold RRFIXEDSZ; omega
  have h2 : ¬ (p + (E.expand_name_for_response abuf alen p).len + RRFIXEDSZ + rr_len > alen) := by
    have := h.fits
    omega
  unfold rr_step
  simp only [hp, h.opt, h.ok, ne_eq, not_true_eq_false, if_false, h1, h.ty, h.cl, h.ln,
    DNS_RR_TTL, httl, h2, h.nm]

/-! ## Formatting -/

theorem utoa_aux_length (fuel : Nat) : ∀ (k n : Nat) (acc : List Byte), 0 < k → n < 10 ^ k →
    (utoa_aux fuel n acc).length ≤ acc.length + k := by
  induction fuel with
  | zero => intro k n acc hk _; simp [utoa_aux]
  | succ fuel ih =>
    intro k n acc hk hn
    unfold utoa_aux
    split
    · simp; omega
    · rename_i h10
      obtain ⟨k, rfl⟩ : ∃ j, k = j + 1 := ⟨k - 1, by omega⟩
      have hk1 : 0 < k := by
        rcases Nat.eq_zero_or_pos k with h | h
        · subst h; simp at hn; omega
        · exact h
      have hdiv : n / 10 < 10 ^ k := by
        rw [Nat.div_lt_iff_lt_mul (by decide)]
        rw [pow_succ] at hn
        exact hn
      have := ih k (n / 10) (digitChar n :: acc) hk1 hdiv
      simp at this
      omega

theorem utoa_length_le (k n : Nat) (hk : 0 < k) (hn : n < 10 ^ k) : (utoa n).length ≤ k := by
  have := utoa_aux_length (n + 1) k n [] hk hn
  simpa [utoa] using this

theorem utoa_byte_length (b : Byte) : (utoa b.val).length ≤ 3 :=
  utoa_length_le 3 b.val (by decide) (by have := b.isLt; omega)

theorem utoa_u16_length {n : Nat} (h : n < 65536) : (utoa n).length ≤ 5 :=
  utoa_length_le 5 n (by decide) (by omega)

theorem utoa_u32_length {n : Nat} (h : n < 4294967296) : (utoa n).length ≤ 10 :=
  utoa_length_le 10 n (by decide) (by omega)

theorem snprintf_of_lt {size : Nat} {full : List Byte} (h : full.length < size) :
    snprintf size full = full := by
  unfold snprintf
  exact List.take_of_length_le (by omega)

theorem inet_ntop4_untruncated (b0 b1 b2 b3 : Byte) :
    snprintf INET_ADDRSTRLEN (inet_ntop4 b0 b1 b2 b3) = inet_ntop4 b0 b1 b2 b3 := by
  apply snprintf_of_lt
  have := utoa_byte_length b0
  have := utoa_byte_length b1
  have := utoa_byte_length b2
  have := utoa_byte_length b3
  simp [inet_ntop4, INET_ADDRSTRLEN]
  omega

/-! ## The end of the walk -/

theorem finish_single (aptr : Nat) (node : Reply) (h : node.name.isSome) :
    finish (some ⟨aptr, ARES_SUCCESS, [node]⟩) = .ret ARES_SUCCESS (some [node]) := by
  have h1 : node.name.isNone = false := by
    cases hn : node.name <;> simp [hn] at h ⊢
  simp [finish, prune, emptyReply, head_name_null, h1]

/-- C1. A message with one question and one record, which the walker decodes
as class IN, type A with the 4-byte RDATA `b0 b1 b2 b3` (`RRAt`: the record is
not taken for an OPT record, its owner name expands to `owner`), gives
`ARES_SUCCESS` and a chain of exactly one node: tag "A", the owner name, and as
value the dotted quad `b0.b1.b2.b3` in decimal, with its length. -/
theorem parse_one_A_record (E : Env) (abuf : List Byte) (alen an ns ar p d : Nat)
    (owner : List Byte) (b0 b1 b2 b3 : Byte)
    (hf : Framed E abuf alen an ns ar p) (hcount : an + ns + ar = 1)
    (hr : RRAt E abuf alen p owner T_A C_IN 4 d)
    (h0 : rd abuf alen d = some b0) (h1 : rd abuf alen (d + 1) = some b1)
    (h2 : rd abuf alen (d + 2) = some b2) (h3 : rd abuf alen (d + 3) = some b3) :
    ares_parse_any_reply E abuf (alen : Int) =
      .ret ARES_SUCCESS (some [⟨str "A", some owner,
        utoa b0.val ++ [DOT] ++ utoa b1.val ++ [DOT] ++ utoa b2.val ++ [DOT] ++ utoa b3.val,
        (utoa b0.val ++ [DOT] ++ utoa b1.val ++ [DOT] ++ utoa b2.val ++ [DOT]
          ++ utoa b3.val).length⟩]) := by
  rw [parse_of_framed hf, hcount]
  have hstep := rr_step_of_RRAt hr ⟨p, ARES_SUCCESS, []⟩ rfl
  have hdec : rr_decode E abuf alen d owner T_A C_IN 4 ARES_SUCCESS =
      .fall ARES_SUCCESS ⟨str "A", some owner, inet_ntop4 b0 b1 b2 b3,
        (inet_ntop4 b0 b1 b2 b3).length⟩ := by
    simp only [rr_decode, decode_A, h0, h1, h2, h3, inet_ntop4_untruncated, and_self, if_true]
    rfl
  rw [hdec] at hstep
  simp only [walk, hstep, Option.isSome_some, if_true, List.nil_append]
  exact finish_single _ _ rfl

/-- C1, the witness of the claim: owner "example.com", bytes 93 184 216 34. -/
theorem parse_one_A_record_witness :
    ares_parse_any_reply sampleEnv msgA 45 =
      .ret ARES_SUCCESS (some [⟨str "A", some (str "example.com"), str "93.184.216.34", 13⟩]) :=
  parse_one_A_record sampleEnv msgA 45 1 0 0 29 41 (str "example.com") 93 184 216 34
    ⟨by decide, by decide, by decide, by decide, by decide, by decide, by decide, by decide⟩
    (by decide)
    ⟨by decide, by decide, by decide, by decide, by decide, by decide, by decide, by decide⟩
    (by decide) (by decide) (by decide) (by decide)

/-! ## TXT -/

theorem rd_bytes_spec {abuf : List Byte} {alen : Nat} : ∀ (n off : Nat) (l : List Byte),
    rd_bytes abuf alen off n = some l →
    l.length = n ∧ ∀ i, i < n → rd abuf alen (off + i) = l[i]? := by
  intro n
  induction n with
  | zero =>
    intro off l h
    simp [rd_bytes] at h
    subst h
    simp
  | succ n ih =>
    intro off l h
    unfold rd_bytes at h
    split at h
    · cases h
    · rename_i b hb
      split at h
      · cases h
      · rename_i bs hbs
        obtain ⟨hl, hi⟩ := ih (off + 1) bs hbs
        simp only [Option.some.injEq] at h
        subst h
        refine ⟨by simp [hl], ?_⟩
        intro i hin
        cases i with
        | zero => simpa using hb
        | succ i =>
          have := hi i (by omega)
          rw [List.getElem?_cons_succ, ← this]
          congr 1
          omega

/-- The fuel of `txt_loop` is never used up: with `rr_len - off` iterations
allowed the loop has ended by itself, and more fuel changes nothing. -/
theorem txt_loop_fuel (abuf : List Byte) (alen aptr rr_len : Nat) :
    ∀ (fuel off : Nat) (data : List Byte) (status : Nat), rr_len ≤ off + fuel →
      txt_loop abuf alen aptr rr_len (fuel + 1) off data status =
        txt_loop abuf alen aptr rr_len fuel off data status := by
  intro fuel
  induction fuel with
  | zero =>
    intro off data status h
    have : ¬ (off < rr_len) := by omega
    simp [txt_loop, this]
  | succ fuel ih =>
    intro off data status h
    rw [txt_loop]
    conv_rhs => rw [txt_loop]
    split
    · split
      · rfl
      · rename_i b hb
        dsimp only
        split
        · rfl
        · exact ih _ _ _ (by omega)
    · rfl

theorem txt_render_length (ss : List (List Byte)) :
    (txt_render ss).length = (txt_rdata ss).length := by
  induction ss with
  | nil => rfl
  | cons s ss ih => simp [txt_render, txt_rdata, ih]

theorem txt_loop_ok (abuf : List Byte) (alen d rr_len : Nat) :
    ∀ (ss : List (List Byte)) (pre : List Byte) (fuel status : Nat),
    (∀ s ∈ ss, s.length < 256) →
    rr_len = pre.length + (txt_rdata ss).length →
    (∀ i, i < (txt_rdata ss).length → rd abuf alen (d + pre.length + i) = (txt_rdata ss)[i]?) →
    (txt_rdata ss).length ≤ fuel →
    txt_loop abuf alen d rr_len fuel pre.length (pre ++ txt_rdata ss) status =
      some (pre ++ txt_render ss, status) := by
  intro ss
  induction ss with
  | nil =>
    intro pre fuel status _ hlen _ _
    simp only [txt_rdata, List.length_nil, Nat.add_zero] at hlen
    cases fuel with
    | zero => simp [txt_loop, txt_rdata, txt_render]
    | succ f => simp [txt_loop, txt_rdata, txt_render, hlen]
  | cons s ss ih =>
    intro pre fuel status hss hlen hrd hfuel
    have hs : s.length < 256 := hss s (List.mem_cons_self _ _)
    have hval : (Fin.ofNat s.length : Byte).val = s.length := by
      show s.length % 256 = s.length
      exact Nat.mod_eq_of_lt hs
    simp only [txt_rdata, List.length_cons, List.length_append] at hlen hfuel
    obtain ⟨f, rfl⟩ : ∃ f, fuel = f + 1 := ⟨fuel - 1, by omega⟩
    have h0 : rd abuf alen (d + pre.length) = some (Fin.ofNat s.length) := by
      have := hrd 0 (by simp [txt_rdata])
      simpa [txt_rdata] using this
    have hlt : pre.length < rr_len := by omega
    have hnot : ¬ (pre.length + s.length + 1 > rr_len) := by omega
    unfold txt_loop
    simp only [hlt, if_true, h0, hval, hnot, if_false]
    have hset : (pre ++ txt_rdata (s :: ss)).set pre.length BAR
        = (pre ++ BAR :: s) ++ txt_rdata ss := by
      simp [txt_rdata, List.set_append]
    have hoff : pre.length + s.length + 1 = (pre ++ BAR :: s).length := by simp; omega
    rw [hset, hoff]
    rw [ih (pre ++ BAR :: s) f status (fun t ht => hss t (List.mem_cons_of_mem _ ht))
      (by simp; omega) ?_ (by omega)]
    · simp [txt_render]
    · intro i hi
      have := hrd (1 + s.length + i) (by simp [txt_rdata]; omega)
      have hidx : d + (pre ++ BAR :: s).length + i = d + pre.length + (1 + s.length + i) := by
        simp; omega
      rw [hidx, this]
      simp only [txt_rdata]
      rw [show 1 + s.length + i = (s.length + i) + 1 by omega, List.getElem?_cons_succ,
        List.getElem?_append_right (by omega)]
      congr 1
      omega

/-- C2. A message with one record, which the walker decodes as IN TXT (`RRAt`)
and whose RDATA is the strings `ss`, each behind its length byte, gives
`ARES_SUCCESS` and one node with tag "TXT" whose value is the RDATA with every
length byte replaced by '|' and every other byte unchanged; the value and the
recorded length have the byte length of the RDATA. -/
theorem parse_one_TXT_record (E : Env) (abuf : List Byte) (alen an ns ar p d rr_len : Nat)
    (owner : List Byte) (ss : List (List Byte))
    (hf : Framed E abuf alen an ns ar p) (hcount : an + ns + ar = 1)
    (hr : RRAt E abuf alen p owner T_TXT C_IN rr_len d)
    (hss : ∀ s ∈ ss, s.length < 256)
    (hdata : rd_bytes abuf alen d rr_len = some (txt_rdata ss)) :
    ares_parse_any_reply E abuf (alen : Int) =
        .ret ARES_SUCCESS (some [⟨str "TXT", some owner, txt_render ss, rr_len⟩]) ∧
      (txt_render ss).length = rr_len ∧ (txt_rdata ss).length = rr_len := by
  obtain ⟨hl, hrd⟩ := rd_bytes_spec rr_len d _ hdata
  refine ⟨?_, by rw [txt_render_length, hl], hl⟩
  rw [parse_of_framed hf, hcount]
  have hstep := rr_step_of_RRAt hr ⟨p, ARES_SUCCESS, []⟩ rfl
  have hloop := txt_loop_ok abuf alen d rr_len ss [] rr_len ARES_SUCCESS hss (by simp [hl])
    (by intro i hi; simpa using hrd i (by omega)) (by omega)
  have hdec : rr_decode E abuf alen d owner T_TXT C_IN rr_len ARES_SUCCESS =
      .fall ARES_SUCCESS ⟨str "TXT", some owner, txt_render ss, rr_len⟩ := by
    have hl0 : ([] : List Byte).length = 0 := rfl
    rw [hl0] at hloop
    simp only [List.nil_append] at hloop
    simp only [rr_decode, decode_TXT, hdata, hloop]
    rfl
  rw [hdec] at hstep
  simp only [walk, hstep, Option.isSome_some, if_true, List.nil_append]
  exact finish_single _ _ rfl

/-- C2, the witness of the claim: bytes 02 'a' 'b' 03 'x' 'y' 'z' give "|ab|xyz". -/
theorem parse_one_TXT_record_witness :
    ares_parse_any_reply sampleEnv msgTXT 48 =
        .ret ARES_SUCCESS (some [⟨str "TXT", some (str "example.com"), str "|ab|xyz", 7⟩]) ∧
      (str "|ab|xyz").length = 7 ∧ ([2, 97, 98, 3, 120, 121, 122] : List Byte).length = 7 :=
  parse_one_TXT_record sampleEnv msgTXT 48 1 0 0 29 41 7 (str "example.com")
    [str "ab", str "xyz"]
    ⟨by decide, by decide, by decide, by decide, by decide, by decide, by decide, by decide⟩
    (by decide)
    ⟨by decide, by decide, by decide, by decide, by decide, by decide, by decide, by decide⟩
    (by decide) (by decide)

/-! ## SOA -/

theorem DNS__32BIT_eq_some {abuf : List Byte} {alen p v : Nat}
    (h : DNS__32BIT abuf alen p = some v) :
    v < 4294967296 ∧ p + 3 < alen := by
  unfold DNS__32BIT at h
  split at h
  · rename_i b0 b1 b2 b3 h0 h1 h2 h3
    simp only [Option.some.injEq] at h
    have := b0.isLt
    have := b1.isLt
    have := b2.isLt
    have := b3.isLt
    exact ⟨by omega, (rd_eq_some_iff.mp h3).1⟩
  · cases h

/-- C3. A message with one record, which the walker decodes as IN SOA (`RRAt`)
and whose RDATA holds two names that expand to `nsname` and `hostmaster` and
then five 32-bit big-endian integers inside the buffer, gives `ARES_SUCCESS`
and one node with tag "SOA" whose value is the complete text "nsname
hostmaster serial refresh retry expire minttl", the integers in unsigned
decimal, and whose length is the length of that text; the staging struct is
allocated. -/
theorem parse_one_SOA_record (E : Env) (abuf : List Byte) (alen an ns ar p d rr_len : Nat)
    (owner nsname hostmaster : List Byte) (l1 l2 serial refresh retry expire minttl : Nat)
    (hf : Framed E abuf alen an ns ar p) (hcount : an + ns + ar = 1)
    (hr : RRAt E abuf alen p owner T_SOA C_IN rr_len d)
    (halloc : E.soa_alloc_ok = true)
    (hns : E.expand_name_for_response abuf alen d = ⟨ARES_SUCCESS, nsname, l1⟩)
    (hhm : E.expand_name_for_response abuf alen (d + l1) = ⟨ARES_SUCCESS, hostmaster, l2⟩)
    (h0 : DNS__32BIT abuf alen (d + l1 + l2) = some serial)
    (h1 : DNS__32BIT abuf alen (d + l1 + l2 + 4) = some refresh)
    (h2 : DNS__32BIT abuf alen (d + l1 + l2 + 8) = some retry)
    (h3 : DNS__32BIT abuf alen (d + l1 + l2 + 12) = some expire)
    (h4 : DNS__32BIT abuf alen (d + l1 + l2 + 16) = some minttl) :
    ares_parse_any_reply E abuf (alen : Int) =
      .ret ARES_SUCCESS (some [⟨str "SOA", some owner,
        nsname ++ [SP] ++ hostmaster ++ [SP] ++ utoa serial ++ [SP] ++ utoa refresh ++ [SP]
          ++ utoa retry ++ [SP] ++ utoa expire ++ [SP] ++ utoa minttl,
        (nsname ++ [SP] ++ hostmaster ++ [SP] ++ utoa serial ++ [SP] ++ utoa refresh ++ [SP]
          ++ utoa retry ++ [SP] ++ utoa expire ++ [SP] ++ utoa minttl).length⟩]) := by
  rw [parse_of_framed hf, hcount]
  have hstep := rr_step_of_RRAt hr ⟨p, ARES_SUCCESS, []⟩ rfl
  have e0 := utoa_u32_length (DNS__32BIT_eq_some h0).1
  have e1 := utoa_u32_length (DNS__32BIT_eq_some h1).1
  have e2 := utoa_u32_length (DNS__32BIT_eq_some h2).1
  have e3 := utoa_u32_length (DNS__32BIT_eq_some h3).1
  have e4 := utoa_u32_length (DNS__32BIT_eq_some h4).1
  have hfit : ¬ (d + l1 + l2 + 5 * 4 > alen) := by
    have := (DNS__32BIT_eq_some h4).2
    omega
  have hsn : snprintf (nsname.length + hostmaster.length + 50 + 7)
      (nsname ++ [SP] ++ hostmaster ++ [SP] ++ utoa serial ++ [SP] ++ utoa refresh ++ [SP]
        ++ utoa retry ++ [SP] ++ utoa expire ++ [SP] ++ utoa minttl) =
      nsname ++ [SP] ++ hostmaster ++ [SP] ++ utoa serial ++ [SP] ++ utoa refresh ++ [SP]
        ++ utoa retry ++ [SP] ++ utoa expire ++ [SP] ++ utoa minttl := by
    apply snprintf_of_lt
    simp only [List.length_append, List.length_singleton]
    omega
  have hdec : rr_decode E abuf alen d owner T_SOA C_IN rr_len ARES_SUCCESS =
      .fall ARES_SUCCESS ⟨str "SOA", some owner,
        nsname ++ [SP] ++ hostmaster ++ [SP] ++ utoa serial ++ [SP] ++ utoa refresh ++ [SP]
          ++ utoa retry ++ [SP] ++ utoa expire ++ [SP] ++ utoa minttl,
        (nsname ++ [SP] ++ hostmaster ++ [SP] ++ utoa serial ++ [SP] ++ utoa refresh ++ [SP]
          ++ utoa retry ++ [SP] ++ utoa expire ++ [SP] ++ utoa minttl).length⟩ := by
    have hty : ¬ (T_SOA = T_A) := by decide
    have hty2 : ¬ (T_SOA = T_CNAME) := by decide
    have hty3 : ¬ (T_SOA = T_AAAA) := by decide
    have hty4 : ¬ (T_SOA = T_TXT) := by decide
    simp only [rr_decode, hty, hty2, hty3, hty4, and_false, if_false, and_self, if_true,
      decode_SOA, halloc, not_true_eq_false, hns, hhm, ne_eq, hfit, Nat.zero_mul, Nat.add_zero,
      Nat.one_mul, h0, h1, h2, h3, h4, hsn]
    rfl
  rw [hdec] at hstep
  simp only [walk, hstep, Option.isSome_some, if_true, List.nil_append]
  exact finish_single _ _ rfl

/-- C3, the witness of the claim: ns1.example.com, admin.example.com,
2024010100, 3600, 900, 604800, 300. -/
theorem parse_one_SOA_record_witness :
    ares_parse_any_reply sampleEnv msgSOA 75 =
      .ret ARES_SUCCESS (some [⟨str "SOA", some (str "example.com"),
        str "ns1.example.com admin.example.com 2024010100 3600 900 604800 300", 64⟩]) :=
  parse_one_SOA_record sampleEnv msgSOA 75 1 0 0 29 41 34 (str "example.com")
    (str "ns1.example.com") (str "admin.example.com") 6 8 2024010100 3600 900 604800 300
    ⟨by decide, by decide, by decide, by decide, by decide, by decide, by decide, by decide⟩
    (by decide)
    ⟨by decide, by decide, by decide, by decide, by decide, by decide, by decide, by decide⟩
    (by decide) (by decide) (by decide) (by decide) (by decide) (by decide) (by decide)
    (by decide)

/-! ## SRV, MX and the unknown types -/

/-- C4 (defect of the code). On the record `SRV 10 100 5060 sip.example.com`
the value is not "10 100 5060 sip.example.com": the buffer of
`strlen(host) + 2*3 + 5` bytes holds 25 characters and the text is cut to
"10 100 5060 sip.example.c". -/
theorem srv_value_truncated :
    ares_parse_any_reply sampleEnv msgSRV 53 =
        .ret ARES_SUCCESS (some [⟨str "SRV", some (str "example.com"),
          str "10 100 5060 sip.example.c", 25⟩]) ∧
      str "10 100 5060 sip.example.c" ≠ str "10 100 5060 sip.example.com" := by
  decide

theorem hutoa_of_u16 {abuf : List Byte} {alen p v : Nat} (h : DNS__16BIT abuf alen p = some v) :
    hutoa v = utoa v := by
  unfold hutoa
  rw [Nat.mod_eq_of_lt (DNS__16BIT_lt h)]

/-- C5. When the walker decodes an IN MX record with RDLENGTH at least 2, whose
16-bit priority is `prio` and whose exchange name expands to `h`, the iteration
appends one node with tag "MX" whose value is the complete text "prio h", the
priority in unsigned decimal, and whose length is the length of that text. -/
theorem step_MX_record (E : Env) (abuf : List Byte) (alen p d rr_len prio l : Nat)
    (owner h : List Byte) (st : WalkState) (hp : st.aptr = p)
    (hr : RRAt E abuf alen p owner T_MX C_IN rr_len d) (hlen : 2 ≤ rr_len)
    (hprio : DNS__16BIT abuf alen d = some prio)
    (hmx : E.expand_name abuf alen (d + 2) = ⟨ARES_SUCCESS, h, l⟩) :
    rr_step E abuf alen st =
      .next ⟨d + rr_len, ARES_SUCCESS, st.chain ++
        [⟨str "MX", some owner, utoa prio ++ [SP] ++ h, (utoa prio ++ [SP] ++ h).length⟩]⟩ := by
  have hstep := rr_step_of_RRAt hr st hp
  have e := utoa_u16_length (DNS__16BIT_lt hprio)
  have hsn : snprintf (h.length + 5 + 2) (utoa prio ++ [SP] ++ h) = utoa prio ++ [SP] ++ h := by
    apply snprintf_of_lt
    simp only [List.length_append, List.length_singleton]
    omega
  have hdec : rr_decode E abuf alen d owner T_MX C_IN rr_len ARES_SUCCESS =
      .fall ARES_SUCCESS ⟨str "MX", some owner, utoa prio ++ [SP] ++ h,
        (utoa prio ++ [SP] ++ h).length⟩ := by
    have t1 : ¬ (T_MX = T_A) := by decide
    have t2 : ¬ (T_MX = T_CNAME) := by decide
    have t3 : ¬ (T_MX = T_AAAA) := by decide
    have t4 : ¬ (T_MX = T_TXT) := by decide
    have t5 : ¬ (T_MX = T_SOA) := by decide
    have t6 : ¬ (T_MX = T_SRV) := by decide
    have hl : ¬ (rr_len < 2) := by omega
    simp only [rr_decode, t1, t2, t3, t4, t5, t6, and_false, if_false, and_self, if_true,
      decode_MX, hl, hprio, hmx, ne_eq, not_true_eq_false, hutoa_of_u16 hprio, hsn]
    rfl
  rw [hdec] at hstep
  simpa using hstep

/-- C5, a witness: the record `MX 10 mail.example.com`. -/
theorem step_MX_record_witness :
    rr_step sampleEnv msgMX 50 ⟨29, ARES_SUCCESS, []⟩ =
      .next ⟨50, ARES_SUCCESS,
        [⟨str "MX", some (str "example.com"), str "10 mail.example.com", 19⟩]⟩ :=
  step_MX_record sampleEnv msgMX 50 29 41 9 10 7 (str "example.com") (str "mail.example.com")
    ⟨29, ARES_SUCCESS, []⟩ rfl
    ⟨by decide, by decide, by decide, by decide, by decide, by decide, by decide, by decide⟩
    (by decide) (by decide) (by decide)

theorem rd_bytes_eq {abuf : List Byte} {alen : Nat} (hbuf : alen ≤ abuf.length) :
    ∀ (n off : Nat), off + n ≤ alen →
      rd_bytes abuf alen off n = some ((abuf.drop off).take n) := by
  intro n
  induction n with
  | zero => intro off _; simp [rd_bytes]
  | succ n ih =>
    intro off h
    have hlt : off < abuf.length := by omega
    have hrd : rd abuf alen off = some abuf[off] := by
      rw [rd_eq_some_iff]
      exact ⟨by omega, List.getElem?_eq_getElem hlt⟩
    unfold rd_bytes
    simp only [hrd, ih (off + 1) (by omega)]
    rw [List.drop_eq_getElem_cons hlt, List.take_succ_cons]

/-- The tag of a record the final `else` decodes. -/
theorem unknown_tag_length {rr_class rr_type : Nat} (hc : rr_class < 65536)
    (ht : rr_type < 65536) :
    (str "UNK_IN_" ++ utoa rr_type).length ≤ 15 ∧
      (str "UNK_" ++ utoa rr_class ++ str "_" ++ utoa rr_type).length ≤ 15 := by
  have e1 := utoa_u16_length hc
  have e2 := utoa_u16_length ht
  have s1 : (str "UNK_IN_").length = 7 := by decide
  have s2 : (str "UNK_").length = 4 := by decide
  have s3 : (str "_").length = 1 := by decide
  simp only [List.length_append, s1, s2, s3]
  omega

/-- C6. When the walker decodes a record whose class is not IN, or whose class
is IN and whose type is none of A, AAAA, CNAME, TXT, SOA, SRV, MX, NS, PTR, the
iteration appends one node whose tag is the complete text "UNK_IN_type" (class
IN) or "UNK_class_type" (other classes), the numbers in unsigned decimal, of
at most 15 characters, and whose value is the `rr_len` bytes of the RDATA with
length `rr_len`. -/
theorem step_unknown_record (E : Env) (abuf : List Byte) (alen p d rr_type rr_class rr_len : Nat)
    (owner : List Byte) (st : WalkState) (hp : st.aptr = p)
    (hbuf : alen ≤ abuf.length)
    (hr : RRAt E abuf alen p owner rr_type rr_class rr_len d)
    (hunk : rr_class ≠ C_IN ∨
      rr_type ∉ [T_A, T_AAAA, T_CNAME, T_TXT, T_SOA, T_SRV, T_MX, T_NS, T_PTR]) :
    rr_step E abuf alen st =
        .next ⟨d + rr_len, ARES_SUCCESS, st.chain ++
          [⟨if rr_class = C_IN then str "UNK_IN_" ++ utoa rr_type
              else str "UNK_" ++ utoa rr_class ++ str "_" ++ utoa rr_type,
            some owner, (abuf.drop d).take rr_len, rr_len⟩]⟩ ∧
      (if rr_class = C_IN then str "UNK_IN_" ++ utoa rr_type
        else str "UNK_" ++ utoa rr_class ++ str "_" ++ utoa rr_type).length ≤ 15 ∧
      ((abuf.drop d).take rr_len).length = rr_len := by
  have hc := DNS__16BIT_lt hr.cl
  have ht := DNS__16BIT_lt hr.ty
  have htag := unknown_tag_length hc ht
  have hfits := hr.fits
  refine ⟨?_, ?_, ?_⟩
  · have hstep := rr_step_of_RRAt hr st hp
    have hdec : rr_decode E abuf alen d owner rr_type rr_class rr_len ARES_SUCCESS =
        decode_unknown abuf alen d rr_len owner rr_type rr_class ARES_SUCCESS := by
      unfold rr_decode
      rcases hunk with h | h
      · simp [h]
      · simp only [List.mem_cons, List.mem_singleton, List.not_mem_nil, or_false, not_or] at h
        obtain ⟨h1, h2, h3, h4, h5, h6, h7, h8, h9⟩ := h
        simp [h1, h2, h3, h4, h5, h6, h7, h8, h9]
    have hu : decode_unknown abuf alen d rr_len owner rr_type rr_class ARES_SUCCESS =
        .fall ARES_SUCCESS ⟨if rr_class = C_IN then str "UNK_IN_" ++ utoa rr_type
              else str "UNK_" ++ utoa rr_class ++ str "_" ++ utoa rr_type,
            some owner, (abuf.drop d).take rr_len, rr_len⟩ := by
      unfold decode_unknown
      simp only [rd_bytes_eq hbuf rr_len d hfits, hutoa, Nat.mod_eq_of_lt hc, Nat.mod_eq_of_lt ht]
      rw [snprintf_of_lt (by omega), snprintf_of_lt (by omega)]
    rw [hdec, hu] at hstep
    simpa using hstep
  · split
    · exact htag.1
    · exact htag.2
  · rw [List.length_take, List.length_drop]
    omega

/-- C6, a witness: type 65535 in class 65534 gives the 15 characters
"UNK_65534_65535" and the four RDATA bytes. -/
theorem step_unknown_record_witness :
    rr_step sampleEnv msgUNK 45 ⟨29, ARES_SUCCESS, []⟩ =
        .next ⟨45, ARES_SUCCESS,
          [⟨str "UNK_65534_65535", some (str "example.com"), [0xDE, 0xAD, 0, 0xEF], 4⟩]⟩ ∧
      (str "UNK_65534_65535").length ≤ 15 ∧ ([0xDE, 0xAD, 0, 0xEF] : List Byte).length = 4 :=
  step_unknown_record sampleEnv msgUNK 45 29 41 65535 65534 4 (str "example.com")
    ⟨29, ARES_SUCCESS, []⟩ rfl (by decide)
    ⟨by decide, by decide, by decide, by decide, by decide, by decide, by decide, by decide⟩
    (by decide)

/-! ## The walk as a whole -/

theorem walk_succ (E : Env) (abuf : List Byte) (alen n : Nat) (st : WalkState) :
    walk E abuf alen (n + 1) st =
      match rr_step E abuf alen st with
      | .fault => none
      | .brk st' => some st'
      | .next st' => walk E abuf alen n st' := rfl

theorem walk_of_reach (E : Env) (abuf : List Byte) (alen : Nat) :
    ∀ (k m : Nat) (st0 st : WalkState), reach E abuf alen k st0 = some st →
      walk E abuf alen (k + m) st0 = walk E abuf alen m st := by
  intro k
  induction k with
  | zero =>
    intro m st0 st h
    simp only [reach, Option.some.injEq] at h
    subst h
    simp
  | succ k ih =>
    intro m st0 st h
    unfold reach at h
    split at h
    · rename_i st1 h1
      rw [show k + 1 + m = (k + m) + 1 by omega, walk_succ, h1]
      exact ih m st1 st h
    · cases h

/-- C8 (defect of the code). The TXT record with RDATA `05 'a' 'b'` has a
length byte that overruns its RDATA. Alone in the message it gives
`ARES_EBADRESP`; followed by an A record the same record is kept in the chain
and the call returns `ARES_SUCCESS`: the `break` at the overrun leaves the
`while` loop only, and the next iteration overwrites `status`. -/
theorem txt_overrun_downgraded :
    ares_parse_any_reply sampleEnv msgBadTXT 44 =
        .ret ARES_EBADRESP (some [⟨str "TXT", some (str "example.com"), [5, 97, 98], 3⟩]) ∧
      ares_parse_any_reply sampleEnv msgBadTXTthenA 60 =
        .ret ARES_SUCCESS (some [⟨str "TXT", some (str "example.com"), [5, 97, 98], 3⟩,
          ⟨str "A", some (str "example.com"), str "93.184.216.34", 13⟩]) := by
  decide

/-- C10 (defect of the code). The valid message `msgA` cut to its first 29, 30
or 31 bytes, which is the header, the question and up to two bytes of the
answer: the OPT test reads the bytes at offsets 30 and 31, outside the
buffer. -/
theorem truncated_message_read_out_of_bounds :
    ares_parse_any_reply sampleEnv (msgA.take 29) 29 = .fault ∧
      ares_parse_any_reply sampleEnv (msgA.take 30) 30 = .fault ∧
      ares_parse_any_reply sampleEnv (msgA.take 31) 31 = .fault ∧
      opt_marker (msgA.take 29) 29 29 = none := by
  decide

/-- Every node of the chain has its owner name set. -/
theorem prune_named_append (c : Reply) (cs : List Reply)
    (h : ∀ x ∈ c :: cs, x.name.isSome = true) :
    prune ((c :: cs) ++ [emptyReply]) = c :: cs := by
  induction cs generalizing c with
  | nil => simp [prune, emptyReply]
  | cons b rest ih =>
    have hb : b.name.isSome = true := h b (by simp)
    have hb' : b.name.isNone = false := by
      cases hn : b.name <;> simp [hn] at hb ⊢
    have := ih b (fun x hx => h x (List.mem_cons_of_mem _ hx))
    simp only [List.cons_append] at this ⊢
    simp [prune, hb', this]

theorem prune_append_empty (chain : List Reply) (h : ∀ x ∈ chain, x.name.isSome = true) :
    prune (chain ++ [emptyReply]) = if chain = [] then [emptyReply] else chain := by
  cases chain with
  | nil => simp [prune]
  | cons c cs => simpa using prune_named_append c cs h

theorem rr_step_chain (E : Env) (abuf : List Byte) (alen : Nat) (st st' : WalkState)
    (h : rr_step E abuf alen st = .brk st' ∨ rr_step E abuf alen st = .next st') :
    st'.chain = st.chain ∨ ∃ node, node.name.isSome = true ∧ st'.chain = st.chain ++ [node] := by
  have key : ∀ r : Step, rr_step E abuf alen st = r →
      match r with
      | .fault => True
      | .brk s => s.chain = st.chain ∨
          ∃ node, node.name.isSome = true ∧ s.chain = st.chain ++ [node]
      | .next s => s.chain = st.chain ∨
          ∃ node, node.name.isSome = true ∧ s.chain = st.chain ++ [node] := by
    intro r hr
    subst hr
    unfold rr_step
    cases opt_marker abuf alen st.aptr with
    | none => trivial
    | some b =>
      cases b with
      | true => exact Or.inl rfl
      | false =>
        dsimp only
        by_cases h1 : (E.expand_name_for_response abuf alen st.aptr).status ≠ ARES_SUCCESS
        · rw [if_pos h1]; exact Or.inl rfl
        · rw [if_neg h1]
          by_cases h2 : st.aptr + (E.expand_name_for_response abuf alen st.aptr).len
              + RRFIXEDSZ > alen
          · rw [if_pos h2]; exact Or.inl rfl
          · rw [if_neg h2]
            cases DNS_RR_TYPE abuf alen
                (st.aptr + (E.expand_name_for_response abuf alen st.aptr).len) <;>
              cases DNS_RR_CLASS abuf alen
                (st.aptr + (E.expand_name_for_response abuf alen st.aptr).len) <;>
              cases DNS_RR_LEN abuf alen
                (st.aptr + (E.expand_name_for_response abuf alen st.aptr).len) <;>
              cases DNS_RR_TTL abuf alen
                (st.aptr + (E.expand_name_for_response abuf alen st.aptr).len) <;>
              try trivial
            rename_i rr_type rr_class rr_len ttl
            dsimp only
            by_cases h3 : st.aptr + (E.expand_name_for_response abuf alen st.aptr).len
                + RRFIXEDSZ + rr_len > alen
            · rw [if_pos h3]; exact Or.inl rfl
            · rw [if_neg h3]
              cases rr_decode E abuf alen
                (st.aptr + (E.expand_name_for_response abuf alen st.aptr).len + RRFIXEDSZ)
                (E.expand_name_for_response abuf alen st.aptr).name rr_type rr_class rr_len
                (E.expand_name_for_response abuf alen st.aptr).status with
              | fault => trivial
              | brk status => exact Or.inl rfl
              | fall status node =>
                dsimp only
                have hc : (if node.name.isSome = true then st.chain ++ [node] else st.chain)
                      = st.chain ∨ ∃ n, n.name.isSome = true ∧
                    (if node.name.isSome = true then st.chain ++ [node] else st.chain)
                      = st.chain ++ [n] := by
                  by_cases hn : node.name.isSome = true
                  · exact Or.inr ⟨node, hn, by simp [hn]⟩
                  · exact Or.inl (by simp [hn])
                rw [if_neg h3]
                exact hc
  rcases h with h | h
  · exact key _ h
  · exact key _ h

theorem rr_step_named (E : Env) (abuf : List Byte) (alen : Nat) (st st' : WalkState)
    (h : rr_step E abuf alen st = .brk st' ∨ rr_step E abuf alen st = .next st')
    (hn : ∀ x ∈ st.chain, x.name.isSome = true) : ∀ x ∈ st'.chain, x.name.isSome = true := by
  rcases rr_step_chain E abuf alen st st' h with h1 | ⟨node, h1, h2⟩
  · rw [h1]; exact hn
  · rw [h2]
    intro x hx
    rcases List.mem_append.mp hx with hx | hx
    · exact hn x hx
    · simp only [List.mem_singleton] at hx
      subst hx
      exact h1

theorem walk_named (E : Env) (abuf : List Byte) (alen : Nat) :
    ∀ (n : Nat) (st st' : WalkState), walk E abuf alen n st = some st' →
      (∀ x ∈ st.chain, x.name.isSome = true) → ∀ x ∈ st'.chain, x.name.isSome = true := by
  intro n
  induction n with
  | zero =>
    intro st st' h hn
    simp only [walk, Option.some.injEq] at h
    subst h
    exact hn
  | succ n ih =>
    intro st st' h hn
    rw [walk_succ] at h
    split at h
    · cases h
    · rename_i st1 h1
      simp only [Option.some.injEq] at h
      subst h
      exact rr_step_named E abuf alen st st1 (Or.inl h1) hn
    · rename_i st1 h1
      exact ih st1 st' h (rr_step_named E abuf alen st st1 (Or.inr h1) hn)

/-- Every return of `ares_parse_any_reply` is either a rejection of the header
or the question, with a status other than `ARES_SUCCESS` and the out-parameter
not written, or the end of a walk. -/
theorem parse_inv (E : Env) (abuf : List Byte) (alen : Int) (status : Nat)
    (out : Option (List Reply)) (h : ares_parse_any_reply E abuf alen = .ret status out) :
    (out = none ∧ status ≠ ARES_SUCCESS) ∨
      ∃ an ns ar p st, Framed E abuf alen.toNat an ns ar p ∧
        walk E abuf alen.toNat (an + ns + ar) ⟨p, ARES_SUCCESS, []⟩ = some st ∧
        status = (if st.status = ARES_SUCCESS ∧
            head_name_null (prune (st.chain ++ [emptyReply])) = true
          then ARES_ENODATA else st.status) ∧
        out = some (prune (st.chain ++ [emptyReply])) := by
  have hbad : ARES_EBADRESP ≠ ARES_SUCCESS := by decide
  unfold ares_parse_any_reply at h
  split at h
  · simp only [Outcome.ret.injEq] at h
    exact Or.inl ⟨h.2.symm, h.1 ▸ hbad⟩
  · rename_i hge
    dsimp only at h
    split at h
    · rename_i qd an ns ar hqd han hns har
      split at h
      · simp only [Outcome.ret.injEq] at h
        exact Or.inl ⟨h.2.symm, h.1 ▸ hbad⟩
      · rename_i hq1
        split at h
        · rename_i hst
          simp only [Outcome.ret.injEq] at h
          exact Or.inl ⟨h.2.symm, h.1 ▸ hst⟩
        · rename_i hst
          split at h
          · simp only [Outcome.ret.injEq] at h
            exact Or.inl ⟨h.2.symm, h.1 ▸ hbad⟩
          · rename_i hfit
            simp only [ne_eq, not_not] at hq1 hst
            have hf : Framed E abuf alen.toNat an ns ar
                (HFIXEDSZ + (E.expand_name_for_response abuf alen.toNat HFIXEDSZ).len
                  + QFIXEDSZ) :=
              ⟨by unfold HFIXEDSZ at hge ⊢; omega, by rw [hqd, hq1], han, hns, har, hst, rfl,
                by omega⟩
            rw [hst] at h
            unfold finish at h
            split at h
            · cases h
            · rename_i st hw
              simp only [Outcome.ret.injEq] at h
              exact Or.inr ⟨an, ns, ar, _, st, hf, hw, h.1.symm, h.2.symm⟩
    · cases h

/-- C11. Whenever `ares_parse_any_reply` returns `ARES_SUCCESS`, the
out-parameter holds a chain that is not empty and every node of it, the last
one included, has its owner name set: the sentinel node is not part of it. -/
theorem success_chain_named (E : Env) (abuf : List Byte) (alen : Int)
    (out : Option (List Reply))
    (h : ares_parse_any_reply E abuf alen = .ret ARES_SUCCESS out) :
    ∃ chain, out = some chain ∧ chain ≠ [] ∧ (∀ x ∈ chain, x.name.isSome = true) ∧
      (∀ x, chain.getLast? = some x → x.name.isSome = true) := by
  rcases parse_inv E abuf alen ARES_SUCCESS out h with ⟨-, hb⟩ | ⟨an, ns, ar, p, st, -, hw, hs, ho⟩
  · exact absurd rfl hb
  · have hn := walk_named E abuf alen.toNat _ _ st hw (by simp)
    rw [prune_append_empty _ hn] at ho hs
    by_cases hc : st.chain = []
    · simp only [hc, if_true, head_name_null, emptyReply, Option.isNone_none, and_true] at hs
      split at hs
      · exact absurd hs (by decide)
      · rename_i h1; exact absurd hs.symm h1
    · simp only [hc, if_false] at ho
      refine ⟨st.chain, ho, hc, hn, ?_⟩
      intro x hx
      exact hn x (List.mem_of_getLast?_eq_some hx)

/-- C11, a witness: the message with one A record. -/
theorem success_chain_named_witness :
    ∃ chain, some [(⟨str "A", some (str "example.com"), str "93.184.216.34", 13⟩ : Reply)]
        = some chain ∧ chain ≠ [] ∧ (∀ x ∈ chain, x.name.isSome = true) ∧
      (∀ x, chain.getLast? = some x → x.name.isSome = true) :=
  success_chain_named sampleEnv msgA 45 _ (by decide)

/-- C12. A message of at least header size with question count 1, whose
question name expands, whose 4 fixed question bytes fit in the buffer and
whose answer, authority and additional counts are all zero gives
`ARES_ENODATA`; the out-parameter then holds the one empty head node. -/
theorem no_records_is_ENODATA (E : Env) (abuf : List Byte) (alen p : Nat)
    (hf : Framed E abuf alen 0 0 0 p) :
    ares_parse_any_reply E abuf (alen : Int) = .ret ARES_ENODATA (some [emptyReply]) := by
  rw [parse_of_framed hf]
  rfl

/-- C12, a witness: the header and the question `example.com ANY IN` alone. -/
theorem no_records_is_ENODATA_witness :
    ares_parse_any_reply sampleEnv msgEmpty 29 = .ret ARES_ENODATA (some [emptyReply]) :=
  no_records_is_ENODATA sampleEnv msgEmpty 29 29
    ⟨by decide, by decide, by decide, by decide, by decide, by decide, by decide, by decide⟩

/-- C14. For every buffer and every declared length `alen` below the header
size 12, negative ones too, the call returns `ARES_EBADRESP`; it reads no byte
(the result is the same for every buffer, the empty one too, and never a
fault) and does not write the out-parameter. -/
theorem short_buffer_is_EBADRESP (E : Env) (abuf : List Byte) (alen : Int)
    (h : alen < 12) :
    ares_parse_any_reply E abuf alen = .ret ARES_EBADRESP none ∧
      ares_parse_any_reply E [] alen = .ret ARES_EBADRESP none := by
  have h1 : alen < (HFIXEDSZ : Nat) := by unfold HFIXEDSZ; omega
  unfold ares_parse_any_reply
  simp only [h1, if_true, and_self]

/-- C14, a witness: the 45-byte message declared with length 11. -/
theorem short_buffer_is_EBADRESP_witness :
    ares_parse_any_reply sampleEnv msgA 11 = .ret ARES_EBADRESP none ∧
      ares_parse_any_reply sampleEnv [] 11 = .ret ARES_EBADRESP none :=
  short_buffer_is_EBADRESP sampleEnv msgA 11 (by decide)

theorem rd_of_lt {abuf : List Byte} {alen i : Nat} (hbuf : alen ≤ abuf.length) (h : i < alen) :
    ∃ b, rd abuf alen i = some b :=
  ⟨abuf[i], rd_eq_some_iff.mpr ⟨h, List.getElem?_eq_getElem (by omega)⟩⟩

theorem DNS__16BIT_of_lt {abuf : List Byte} {alen p : Nat} (hbuf : alen ≤ abuf.length)
    (h : p + 1 < alen) : ∃ v, DNS__16BIT abuf alen p = some v := by
  obtain ⟨b0, h0⟩ := rd_of_lt hbuf (show p < alen by omega)
  obtain ⟨b1, h1⟩ := rd_of_lt hbuf h
  exact ⟨b0.val * 256 + b1.val, by simp [DNS__16BIT, h0, h1]⟩

/-- C15. For every buffer that holds the `alen` declared bytes, `alen` at least
the header size, whose 16-bit big-endian question count (header bytes 4 and 5)
is different from 1, 0 included, the call returns `ARES_EBADRESP`. -/
theorem question_count_not_one (E : Env) (abuf : List Byte) (alen : Int) (qd : Nat)
    (h12 : 12 ≤ alen) (hbuf : alen.toNat ≤ abuf.length)
    (hqd : DNS__16BIT abuf alen.toNat 4 = some qd) (hne : qd ≠ 1) :
    ares_parse_any_reply E abuf alen = .ret ARES_EBADRESP none := by
  have h1 : ¬ (alen < (HFIXEDSZ : Nat)) := by unfold HFIXEDSZ; omega
  obtain ⟨an, han⟩ := DNS__16BIT_of_lt hbuf (show 6 + 1 < alen.toNat by omega)
  obtain ⟨ns, hns⟩ := DNS__16BIT_of_lt hbuf (show 8 + 1 < alen.toNat by omega)
  obtain ⟨ar, har⟩ := DNS__16BIT_of_lt hbuf (show 10 + 1 < alen.toNat by omega)
  unfold ares_parse_any_reply
  simp only [h1, if_false, DNS_HEADER_QDCOUNT, DNS_HEADER_ANCOUNT, DNS_HEADER_NSCOUNT,
    DNS_HEADER_ARCOUNT, hqd, han, hns, har, ne_eq, hne, not_false_eq_true, if_true]

/-- C15, a witness: question count 0. -/
theorem question_count_not_one_witness :
    ares_parse_any_reply sampleEnv msgNoQuestion 45 = .ret ARES_EBADRESP none :=
  question_count_not_one sampleEnv msgNoQuestion 45 0 (by decide) (by decide) (by decide)
    (by decide)

/-! ## Sequences of records -/

theorem reach_succ (E : Env) (abuf : List Byte) (alen k : Nat) (st : WalkState) :
    reach E abuf alen (k + 1) st =
      match rr_step E abuf alen st with
      | .next st' => reach E abuf alen k st'
      | _ => none := rfl

theorem step_of_decoded {E : Env} {abuf : List Byte} {alen p : Nat} {owner : List Byte}
    {rr_type rr_class rr_len d : Nat} {node : Reply}
    (hr : RRAt E abuf alen p owner rr_type rr_class rr_len d)
    (hdec : rr_decode E abuf alen d owner rr_type rr_class rr_len ARES_SUCCESS
      = .fall ARES_SUCCESS node)
    (hname : node.name = some owner) (st : WalkState) (hp : st.aptr = p) :
    rr_step E abuf alen st = .next ⟨d + rr_len, ARES_SUCCESS, st.chain ++ [node]⟩ := by
  have hstep := rr_step_of_RRAt hr st hp
  rw [hdec] at hstep
  simpa [hname] using hstep

theorem reach_of_decodes (E : Env) (abuf : List Byte) (alen : Nat) :
    ∀ (nodes : List Reply) (p q : Nat) (chain : List Reply), Decodes E abuf alen p nodes q →
      reach E abuf alen nodes.length ⟨p, ARES_SUCCESS, chain⟩
        = some ⟨q, ARES_SUCCESS, chain ++ nodes⟩ := by
  intro nodes
  induction nodes with
  | nil =>
    intro p q chain h
    simp only [Decodes] at h
    subst h
    simp [reach]
  | cons node rest ih =>
    intro p q chain h
    obtain ⟨owner, ty, cl, len, d, hr, hdec, hname, hrest⟩ := h
    rw [List.length_cons, reach_succ, step_of_decoded hr hdec hname ⟨p, ARES_SUCCESS, chain⟩ rfl]
    simp only
    rw [ih (d + len) q (chain ++ [node]) hrest]
    simp

theorem decodes_named (E : Env) (abuf : List Byte) (alen : Nat) :
    ∀ (nodes : List Reply) (p q : Nat), Decodes E abuf alen p nodes q →
      ∀ x ∈ nodes, x.name.isSome = true := by
  intro nodes
  induction nodes with
  | nil => intro p q _ x hx; cases hx
  | cons node rest ih =>
    intro p q h x hx
    obtain ⟨owner, ty, cl, len, d, -, -, hname, hrest⟩ := h
    rcases List.mem_cons.mp hx with hx | hx
    · subst hx; simp [hname]
    · exact ih (d + len) q hrest x hx

theorem decodes_append (E : Env) (abuf : List Byte) (alen : Nat) :
    ∀ (n1 n2 : List Reply) (p q r : Nat), Decodes E abuf alen p n1 q →
      Decodes E abuf alen q n2 r → Decodes E abuf alen p (n1 ++ n2) r := by
  intro n1
  induction n1 with
  | nil =>
    intro n2 p q r h1 h2
    simp only [Decodes] at h1
    subst h1
    simpa using h2
  | cons node rest ih =>
    intro n2 p q r h1 h2
    obtain ⟨owner, ty, cl, len, d, hr, hdec, hname, hrest⟩ := h1
    exact ⟨owner, ty, cl, len, d, hr, hdec, hname, ih n2 (d + len) q r hrest h2⟩

theorem finish_named (aptr : Nat) (chain : List Reply)
    (hn : ∀ x ∈ chain, x.name.isSome = true) :
    finish (some ⟨aptr, ARES_SUCCESS, chain⟩) =
      .ret (if chain = [] then ARES_ENODATA else ARES_SUCCESS)
        (some (if chain = [] then [emptyReply] else chain)) := by
  unfold finish
  simp only [prune_append_empty chain hn]
  cases chain with
  | nil => simp [head_name_null, emptyReply]
  | cons c cs =>
    have hc : c.name.isNone = false := by
      have := hn c (List.mem_cons_self _ _)
      cases hcn : c.name <;> simp [hcn] at this ⊢
    simp [head_name_null, hc]

/-- The result on a message whose records all decode. -/
theorem parse_of_decodes {E : Env} {abuf : List Byte} {alen an ns ar p q : Nat}
    {nodes : List Reply} (hf : Framed E abuf alen an ns ar p)
    (hcount : an + ns + ar = nodes.length) (hd : Decodes E abuf alen p nodes q) :
    ares_parse_any_reply E abuf (alen : Int) =
      .ret (if nodes = [] then ARES_ENODATA else ARES_SUCCESS)
        (some (if nodes = [] then [emptyReply] else nodes)) := by
  rw [parse_of_framed hf, hcount]
  have hreach := reach_of_decodes E abuf alen nodes p q [] hd
  have hw := walk_of_reach E abuf alen nodes.length 0 _ _ hreach
  simp only [Nat.add_zero, List.nil_append] at hw
  rw [hw]
  exact finish_named q nodes (decodes_named E abuf alen nodes p q hd)

/-- C17. When `k` records after the question decode without error and the next
of the counted records has the bytes `00 29` at its second and third place,
the walk stops there without failing: for `k >= 1` the call returns
`ARES_SUCCESS` and a chain of exactly these `k` nodes, whatever follows the
marker, and for `k = 0` it returns `ARES_ENODATA`. -/
theorem opt_marker_stops_walk (E : Env) (abuf : List Byte) (alen an ns ar p q : Nat)
    (nodes : List Reply) (hf : Framed E abuf alen an ns ar p)
    (hk : nodes.length < an + ns + ar) (hd : Decodes E abuf alen p nodes q)
    (hopt : opt_marker abuf alen q = some true) :
    (1 ≤ nodes.length →
        ares_parse_any_reply E abuf (alen : Int) = .ret ARES_SUCCESS (some nodes)) ∧
      (nodes.length = 0 →
        ares_parse_any_reply E abuf (alen : Int) = .ret ARES_ENODATA (some [emptyReply])) := by
  have main : ares_parse_any_reply E abuf (alen : Int) =
      .ret (if nodes = [] then ARES_ENODATA else ARES_SUCCESS)
        (some (if nodes = [] then [emptyReply] else nodes)) := by
    rw [parse_of_framed hf]
    obtain ⟨m, hm⟩ : ∃ m, an + ns + ar = nodes.length + (m + 1) :=
      ⟨an + ns + ar - nodes.length - 1, by omega⟩
    have hreach := reach_of_decodes E abuf alen nodes p q [] hd
    rw [hm, walk_of_reach E abuf alen nodes.length (m + 1) _ _ hreach, walk_succ]
    have hstep : rr_step E abuf alen ⟨q, ARES_SUCCESS, [] ++ nodes⟩
        = .brk ⟨q, ARES_SUCCESS, [] ++ nodes⟩ := by
      unfold rr_step
      simp only [hopt]
    rw [hstep]
    simp only [List.nil_append]
    exact finish_named q nodes (decodes_named E abuf alen nodes p q hd)
  refine ⟨?_, ?_⟩
  · intro h1
    have hne : nodes ≠ [] := by
      intro h; rw [h] at h1; simp at h1
    rw [main]
    simp [hne]
  · intro h0
    have he : nodes = [] := List.length_eq_zero.mp h0
    rw [main]
    simp [he]

/-- C17, a witness: an A record, then an OPT pseudo-record and an MX record
behind it that is not decoded. -/
theorem opt_marker_stops_walk_witness :
    ares_parse_any_reply sampleEnv msgOPT 77 = .ret ARES_SUCCESS
      (some [⟨str "A", some (str "example.com"), str "93.184.216.34", 13⟩]) :=
  (opt_marker_stops_walk sampleEnv msgOPT 77 1 0 2 29 45
    [⟨str "A", some (str "example.com"), str "93.184.216.34", 13⟩]
    ⟨by decide, by decide, by decide, by decide, by decide, by decide, by decide, by decide⟩
    (by decide)
    ⟨str "example.com", 1, 1, 4, 41,
      ⟨by decide, by decide, by decide, by decide, by decide, by decide, by decide, by decide⟩,
      by decide, by decide, rfl⟩
    (by decide)).1 (by decide)

/-- The short SRV record among records that decode without error. An IN SRV
record with RDLENGTH below 6 that the walker reaches after the records `n1`
and that is followed by the records `n2` produces no node and no error: its
iteration only moves the cursor to the end of its RDATA, the chain is `n1`
followed by `n2`, and the call returns what every message does whose records
decode to `n1` followed by `n2` without that SRV record: `ARES_SUCCESS` if
there is such a record, `ARES_ENODATA` if there is none. A record before it
that left an error status pending is not covered: `Decodes` excludes it. -/
theorem short_srv_skipped (E : Env) (abuf : List Byte) (alen an ns ar p q d rr_len r : Nat)
    (owner : List Byte) (n1 n2 : List Reply)
    (hf : Framed E abuf alen an ns ar p) (hcount : an + ns + ar = n1.length + 1 + n2.length)
    (h1 : Decodes E abuf alen p n1 q)
    (hr : RRAt E abuf alen q owner T_SRV C_IN rr_len d) (hlen : rr_len < 6)
    (h2 : Decodes E abuf alen (d + rr_len) n2 r) :
    rr_step E abuf alen ⟨q, ARES_SUCCESS, n1⟩ = .next ⟨d + rr_len, ARES_SUCCESS, n1⟩ ∧
      ares_parse_any_reply E abuf (alen : Int) =
        .ret (if n1 ++ n2 = [] then ARES_ENODATA else ARES_SUCCESS)
          (some (if n1 ++ n2 = [] then [emptyReply] else n1 ++ n2)) ∧
      ∀ (abuf' : List Byte) (alen' an' ns' ar' p' r' : Nat),
        Framed E abuf' alen' an' ns' ar' p' → an' + ns' + ar' = (n1 ++ n2).length →
        Decodes E abuf' alen' p' (n1 ++ n2) r' →
        ares_parse_any_reply E abuf' (alen' : Int) = ares_parse_any_reply E abuf (alen : Int) := by
  have hdec : rr_decode E abuf alen d owner T_SRV C_IN rr_len ARES_SUCCESS =
      .fall ARES_SUCCESS emptyReply := by
    have t1 : ¬ (T_SRV = T_A) := by decide
    have t2 : ¬ (T_SRV = T_CNAME) := by decide
    have t3 : ¬ (T_SRV = T_AAAA) := by decide
    have t4 : ¬ (T_SRV = T_TXT) := by decide
    have t5 : ¬ (T_SRV = T_SOA) := by decide
    have hl : ¬ (rr_len ≥ 6) := by omega
    simp only [rr_decode, t1, t2, t3, t4, t5, and_false, if_false, and_self, if_true,
      decode_SRV, hl]
  have hstep : rr_step E abuf alen ⟨q, ARES_SUCCESS, n1⟩
      = .next ⟨d + rr_len, ARES_SUCCESS, n1⟩ := by
    have h := rr_step_of_RRAt hr ⟨q, ARES_SUCCESS, n1⟩ rfl
    rw [hdec] at h
    simpa [emptyReply] using h
  have hmain : ares_parse_any_reply E abuf (alen : Int) =
      .ret (if n1 ++ n2 = [] then ARES_ENODATA else ARES_SUCCESS)
        (some (if n1 ++ n2 = [] then [emptyReply] else n1 ++ n2)) := by
    rw [parse_of_framed hf, hcount, Nat.add_assoc]
    have hreach1 := reach_of_decodes E abuf alen n1 p q [] h1
    rw [walk_of_reach E abuf alen n1.length (1 + n2.length) _ _ hreach1,
      Nat.add_comm 1 n2.length, walk_succ]
    simp only [List.nil_append, hstep]
    have hreach2 := reach_of_decodes E abuf alen n2 (d + rr_len) r n1 h2
    have hw := walk_of_reach E abuf alen n2.length 0 _ _ hreach2
    simp only [Nat.add_zero] at hw
    rw [hw]
    apply finish_named
    intro x hx
    rcases List.mem_append.mp hx with hx | hx
    · exact decodes_named E abuf alen n1 p q h1 x hx
    · exact decodes_named E abuf alen n2 _ r h2 x hx
  refine ⟨hstep, hmain, ?_⟩
  intro abuf' alen' an' ns' ar' p' r' hf' hc' hd'
  rw [hmain, parse_of_decodes hf' hc' hd']

/-- An instance of `short_srv_skipped`: between an A record and an MX record,
an SRV record with 4 bytes of RDATA; the result is the one of the message
without it. -/
theorem short_srv_skipped_witness :
    ares_parse_any_reply sampleEnv msgShortSRV 82 =
        .ret ARES_SUCCESS (some
          [⟨str "A", some (str "example.com"), str "93.184.216.34", 13⟩,
           ⟨str "MX", some (str "example.com"), str "10 mail.example.com", 19⟩]) ∧
      ares_parse_any_reply sampleEnv msgNoSRV 66 = ares_parse_any_reply sampleEnv msgShortSRV 82 :=
  have h := short_srv_skipped sampleEnv msgShortSRV 82 3 0 0 29 45 57 4 82 (str "example.com")
    [⟨str "A", some (str "example.com"), str "93.184.216.34", 13⟩]
    [⟨str "MX", some (str "example.com"), str "10 mail.example.com", 19⟩]
    ⟨by decide, by decide, by decide, by decide, by decide, by decide, by decide, by decide⟩
    (by decide)
    ⟨str "example.com", 1, 1, 4, 41,
      ⟨by decide, by decide, by decide, by decide, by decide, by decide, by decide, by decide⟩,
      by decide, by decide, rfl⟩
    ⟨by decide, by decide, by decide, by decide, by decide, by decide, by decide, by decide⟩
    (by decide)
    ⟨str "example.com", 15, 1, 9, 73,
      ⟨by decide, by decide, by decide, by decide, by decide, by decide, by decide, by decide⟩,
      by decide, by decide, rfl⟩
  ⟨h.2.1, h.2.2 msgNoSRV 66 2 0 0 29 66
    ⟨by decide, by decide, by decide, by decide, by decide, by decide, by decide, by decide⟩
    (by decide)
    ⟨str "example.com", 1, 1, 4, 41,
      ⟨by decide, by decide, by decide, by decide, by decide, by decide, by decide, by decide⟩,
      by decide, by decide,
      str "example.com", 15, 1, 9, 57,
      ⟨by decide, by decide, by decide, by decide, by decide, by decide, by decide, by decide⟩,
      by decide, by decide, rfl⟩⟩

/-- C18 (defect of the code). A TXT record with a bad length byte followed by
an SRV record with 4 bytes of RDATA: the iteration of the SRV record starts
with the pending status `ARES_EBADRESP`, overwrites it with the status of the
owner name expansion and adds no node, so the call returns `ARES_SUCCESS`. The
message without the SRV record, `msgBadTXT`, returns `ARES_EBADRESP`: the
result is not the one the message gives without the SRV record. -/
theorem short_srv_resets_status :
    reach sampleEnv msgBadTXTthenShortSRV 60 1 ⟨29, ARES_SUCCESS, []⟩ =
        some ⟨44, ARES_EBADRESP, [⟨str "TXT", some (str "example.com"), [5, 97, 98], 3⟩]⟩ ∧
      rr_step sampleEnv msgBadTXTthenShortSRV 60
          ⟨44, ARES_EBADRESP, [⟨str "TXT", some (str "example.com"), [5, 97, 98], 3⟩]⟩ =
        .next ⟨60, ARES_SUCCESS, [⟨str "TXT", some (str "example.com"), [5, 97, 98], 3⟩]⟩ ∧
      ares_parse_any_reply sampleEnv msgBadTXTthenShortSRV 60 =
        .ret ARES_SUCCESS (some [⟨str "TXT", some (str "example.com"), [5, 97, 98], 3⟩]) ∧
      ares_parse_any_reply sampleEnv msgBadTXT 44 =
        .ret ARES_EBADRESP (some [⟨str "TXT", some (str "example.com"), [5, 97, 98], 3⟩]) ∧
      ARES_SUCCESS ≠ ARES_EBADRESP := by
  decide

theorem reach_named (E : Env) (abuf : List Byte) (alen : Nat) :
    ∀ (k : Nat) (st st' : WalkState), reach E abuf alen k st = some st' →
      (∀ x ∈ st.chain, x.name.isSome = true) → ∀ x ∈ st'.chain, x.name.isSome = true := by
  intro k
  induction k with
  | zero =>
    intro st st' h hn
    simp only [reach, Option.some.injEq] at h
    subst h
    exact hn
  | succ k ih =>
    intro st st' h hn
    rw [reach_succ] at h
    split at h
    · rename_i st1 h1
      exact ih st1 st' h (rr_step_named E abuf alen st st1 (Or.inr h1) hn)
    · cases h

/-- The result when the iteration after `k` complete ones leaves the loop by
`break` with a status other than `ARES_SUCCESS`. -/
theorem parse_of_break {E : Env} {abuf : List Byte} {alen an ns ar p0 k a status : Nat}
    {st : WalkState} (hf : Framed E abuf alen an ns ar p0) (hk : k < an + ns + ar)
    (hreach : reach E abuf alen k ⟨p0, ARES_SUCCESS, []⟩ = some st)
    (hstep : rr_step E abuf alen st = .brk ⟨a, status, st.chain⟩)
    (hne : status ≠ ARES_SUCCESS) :
    ares_parse_any_reply E abuf (alen : Int) =
      .ret status (some (if st.chain = [] then [emptyReply] else st.chain)) := by
  rw [parse_of_framed hf]
  obtain ⟨m, hm⟩ : ∃ m, an + ns + ar = k + (m + 1) := ⟨an + ns + ar - k - 1, by omega⟩
  rw [hm, walk_of_reach E abuf alen k (m + 1) _ st hreach, walk_succ, hstep]
  have hn := reach_named E abuf alen k _ st hreach (by simp)
  simp only [finish, prune_append_empty _ hn, hne, false_and, if_false]

/-- C19. When the walker, after `k` complete iterations, is at an IN MX record
whose RDLENGTH is 0 or 1, the call returns `ARES_EBADRESP` and the chain holds
the nodes built before only: no node for the MX record or a record after it. -/
theorem short_mx_is_EBADRESP (E : Env) (abuf : List Byte) (alen an ns ar p0 k rr_len d : Nat)
    (st : WalkState) (owner : List Byte)
    (hf : Framed E abuf alen an ns ar p0) (hk : k < an + ns + ar)
    (hreach : reach E abuf alen k ⟨p0, ARES_SUCCESS, []⟩ = some st)
    (hr : RRAt E abuf alen st.aptr owner T_MX C_IN rr_len d) (hlen : rr_len < 2) :
    ares_parse_any_reply E abuf (alen : Int) =
      .ret ARES_EBADRESP (some (if st.chain = [] then [emptyReply] else st.chain)) := by
  have hdec : rr_decode E abuf alen d owner T_MX C_IN rr_len ARES_SUCCESS =
      .brk ARES_EBADRESP := by
    have t1 : ¬ (T_MX = T_A) := by decide
    have t2 : ¬ (T_MX = T_CNAME) := by decide
    have t3 : ¬ (T_MX = T_AAAA) := by decide
    have t4 : ¬ (T_MX = T_TXT) := by decide
    have t5 : ¬ (T_MX = T_SOA) := by decide
    have t6 : ¬ (T_MX = T_SRV) := by decide
    simp only [rr_decode, t1, t2, t3, t4, t5, t6, and_false, if_false, and_self, if_true,
      decode_MX, hlen]
  have hstep := rr_step_of_RRAt hr st rfl
  rw [hdec] at hstep
  exact parse_of_break hf hk hreach hstep (by decide)

/-- C19, a witness: an A record, an MX record with one byte of RDATA, and an A
record behind it. -/
theorem short_mx_is_EBADRESP_witness :
    ares_parse_any_reply sampleEnv msgShortMX 74 =
      .ret ARES_EBADRESP (some
        (if [(⟨str "A", some (str "example.com"), str "93.184.216.34", 13⟩ : Reply)] = []
          then [emptyReply]
          else [⟨str "A", some (str "example.com"), str "93.184.216.34", 13⟩])) :=
  short_mx_is_EBADRESP sampleEnv msgShortMX 74 3 0 0 29 1 1 57
    ⟨45, ARES_SUCCESS, [⟨str "A", some (str "example.com"), str "93.184.216.34", 13⟩]⟩
    (str "example.com")
    ⟨by decide, by decide, by decide, by decide, by decide, by decide, by decide, by decide⟩
    (by decide) (by decide)
    ⟨by decide, by decide, by decide, by decide, by decide, by decide, by decide, by decide⟩
    (by decide)

/-! ## Errors of the name expansion -/

/-- C13, the counterexample. The expansion of the SOA nsname returns
`ARES_ENOMEM`, and `ares_parse_any_reply` returns `ARES_EBADRESP`, not that
code. -/
theorem soa_expand_error_replaced :
    ((oomEnv 41).expand_name_for_response msgSOA 75 41).status = ARES_ENOMEM ∧
      ares_parse_any_reply (oomEnv 41) msgSOA 75 = .ret ARES_EBADRESP (some [emptyReply]) ∧
      ARES_EBADRESP ≠ ARES_ENOMEM := by
  decide

theorem decode_name_error (E : Env) (abuf : List Byte) (alen d : Nat) (owner : List Byte)
    (tag : String) (h : (E.expand_name_for_response abuf alen d).status ≠ ARES_SUCCESS) :
    decode_name E abuf alen d owner tag =
      .brk (E.expand_name_for_response abuf alen d).status := by
  simp only [decode_name, h, ne_eq, not_false_eq_true, if_true]

/-- C13, as amended. For every call the decoder makes to a name expansion
function (question name, owner name, CNAME/NS/PTR target, SOA nsname and
hostmaster, SRV target, MX exchange) that returns an error `e`,
`ares_parse_any_reply` returns `e` unchanged, except for the two calls of the
SOA branch, after which it returns `ARES_EBADRESP` whatever `e` is. -/
theorem expand_error_status (E : Env) (abuf : List Byte) (alen e : Nat) (st : WalkState)
    (site : Site) (hbuf : alen ≤ abuf.length) (hne : e ≠ ARES_SUCCESS)
    (h : call_returns E abuf alen st e site) :
    ∃ out, ares_parse_any_reply E abuf (alen : Int) = .ret (status_after site e) out := by
  cases site with
  | question =>
    obtain ⟨h12, hqd, hst⟩ := h
    have h1 : ¬ ((alen : Int) < (HFIXEDSZ : Nat)) := by omega
    unfold HFIXEDSZ at h12
    obtain ⟨an, han⟩ := DNS__16BIT_of_lt hbuf (show 6 + 1 < alen by omega)
    obtain ⟨ns, hns⟩ := DNS__16BIT_of_lt hbuf (show 8 + 1 < alen by omega)
    obtain ⟨ar, har⟩ := DNS__16BIT_of_lt hbuf (show 10 + 1 < alen by omega)
    refine ⟨none, ?_⟩
    unfold ares_parse_any_reply
    simp only [h1, if_false, Int.toNat_ofNat, hqd, DNS_HEADER_ANCOUNT, DNS_HEADER_NSCOUNT,
      DNS_HEADER_ARCOUNT, han, hns, har, ne_eq, not_true_eq_false, hst, hne, not_false_eq_true,
      if_true, status_after]
  | owner =>
    obtain ⟨⟨an, ns, ar, p0, k, hf, hk, hreach⟩, hopt, hst⟩ := h
    have hstep : rr_step E abuf alen st = .brk ⟨st.aptr, e, st.chain⟩ := by
      unfold rr_step
      simp only [hopt, hst, ne_eq, hne, not_false_eq_true, if_true]
    exact ⟨_, parse_of_break hf hk hreach hstep hne⟩
  | cname_ns_ptr =>
    obtain ⟨⟨an, ns, ar, p0, k, hf, hk, hreach⟩, owner, ty, len, d, hr, hty, hst⟩ := h
    have hne' : (E.expand_name_for_response abuf alen d).status ≠ ARES_SUCCESS := hst ▸ hne
    have hdec : rr_decode E abuf alen d owner ty C_IN len ARES_SUCCESS = .brk e := by
      rcases hty with rfl | rfl | rfl
      · have t1 : ¬ (T_CNAME = T_A) := by decide
        simp only [rr_decode, t1, and_false, if_false, and_self, if_true,
          decode_name_error E abuf alen d owner _ hne', hst]
      · have t1 : ¬ (T_NS = T_A) := by decide
        have t2 : ¬ (T_NS = T_CNAME) := by decide
        have t3 : ¬ (T_NS = T_AAAA) := by decide
        have t4 : ¬ (T_NS = T_TXT) := by decide
        have t5 : ¬ (T_NS = T_SOA) := by decide
        have t6 : ¬ (T_NS = T_SRV) := by decide
        have t7 : ¬ (T_NS = T_MX) := by decide
        simp only [rr_decode, t1, t2, t3, t4, t5, t6, t7, and_false, if_false, and_self,
          if_true, decode_name_error E abuf alen d owner _ hne', hst]
      · have t1 : ¬ (T_PTR = T_A) := by decide
        have t2 : ¬ (T_PTR = T_CNAME) := by decide
        have t3 : ¬ (T_PTR = T_AAAA) := by decide
        have t4 : ¬ (T_PTR = T_TXT) := by decide
        have t5 : ¬ (T_PTR = T_SOA) := by decide
        have t6 : ¬ (T_PTR = T_SRV) := by decide
        have t7 : ¬ (T_PTR = T_MX) := by decide
        have t8 : ¬ (T_PTR = T_NS) := by decide
        simp only [rr_decode, t1, t2, t3, t4, t5, t6, t7, t8, and_false, if_false, and_self,
          if_true, decode_name_error E abuf alen d owner _ hne', hst]
    have hstep := rr_step_of_RRAt hr st rfl
    rw [hdec] at hstep
    exact ⟨_, parse_of_break hf hk hreach hstep hne⟩
  | soa_nsname =>
    obtain ⟨⟨an, ns, ar, p0, k, hf, hk, hreach⟩, owner, len, d, hr, halloc, hst⟩ := h
    have hne' : (E.expand_name_for_response abuf alen d).status ≠ ARES_SUCCESS := hst ▸ hne
    have hdec : rr_decode E abuf alen d owner T_SOA C_IN len ARES_SUCCESS
        = .brk ARES_EBADRESP := by
      have t1 : ¬ (T_SOA = T_A) := by decide
      have t2 : ¬ (T_SOA = T_CNAME) := by decide
      have t3 : ¬ (T_SOA = T_AAAA) := by decide
      have t4 : ¬ (T_SOA = T_TXT) := by decide
      simp only [rr_decode, t1, t2, t3, t4, and_false, if_false, and_self, if_true,
        decode_SOA, halloc, not_true_eq_false, ne_eq, hne', not_false_eq_true]
    have hstep := rr_step_of_RRAt hr st rfl
    rw [hdec] at hstep
    exact ⟨_, parse_of_break hf hk hreach hstep
      (show ARES_EBADRESP ≠ ARES_SUCCESS by decide)⟩
  | soa_hostmaster =>
    obtain ⟨⟨an, ns, ar, p0, k, hf, hk, hreach⟩, owner, len, d, hr, halloc, hok, hst⟩ := h
    have hne' : (E.expand_name_for_response abuf alen
        (d + (E.expand_name_for_response abuf alen d).len)).status ≠ ARES_SUCCESS := hst ▸ hne
    have hdec : rr_decode E abuf alen d owner T_SOA C_IN len ARES_SUCCESS
        = .brk ARES_EBADRESP := by
      have t1 : ¬ (T_SOA = T_A) := by decide
      have t2 : ¬ (T_SOA = T_CNAME) := by decide
      have t3 : ¬ (T_SOA = T_AAAA) := by decide
      have t4 : ¬ (T_SOA = T_TXT) := by decide
      simp only [rr_decode, t1, t2, t3, t4, and_false, if_false, and_self, if_true,
        decode_SOA, halloc, not_true_eq_false, ne_eq, hok, hne', not_false_eq_true]
    have hstep := rr_step_of_RRAt hr st rfl
    rw [hdec] at hstep
    exact ⟨_, parse_of_break hf hk hreach hstep
      (show ARES_EBADRESP ≠ ARES_SUCCESS by decide)⟩
  | srv_target =>
    obtain ⟨⟨an, ns, ar, p0, k, hf, hk, hreach⟩, owner, len, d, hr, hlen, hst⟩ := h
    have hne' : (E.expand_name abuf alen (d + 6)).status ≠ ARES_SUCCESS := hst ▸ hne
    have hfits := hr.fits
    obtain ⟨v0, h0⟩ := DNS__16BIT_of_lt hbuf (show d + 1 < alen by omega)
    obtain ⟨v1, h1⟩ := DNS__16BIT_of_lt hbuf (show d + 2 + 1 < alen by omega)
    obtain ⟨v2, h2⟩ := DNS__16BIT_of_lt hbuf (show d + 4 + 1 < alen by omega)
    have hdec : rr_decode E abuf alen d owner T_SRV C_IN len ARES_SUCCESS = .brk e := by
      have t1 : ¬ (T_SRV = T_A) := by decide
      have t2 : ¬ (T_SRV = T_CNAME) := by decide
      have t3 : ¬ (T_SRV = T_AAAA) := by decide
      have t4 : ¬ (T_SRV = T_TXT) := by decide
      have t5 : ¬ (T_SRV = T_SOA) := by decide
      simp only [rr_decode, t1, t2, t3, t4, t5, and_false, if_false, and_self, if_true,
        decode_SRV, ge_iff_le, hlen, h0, h1, h2, ne_eq, hst, hne, not_false_eq_true]
    have hstep := rr_step_of_RRAt hr st rfl
    rw [hdec] at hstep
    exact ⟨_, parse_of_break hf hk hreach hstep hne⟩
  | mx_exchange =>
    obtain ⟨⟨an, ns, ar, p0, k, hf, hk, hreach⟩, owner, len, d, hr, hlen, hst⟩ := h
    have hne' : (E.expand_name abuf alen (d + 2)).status ≠ ARES_SUCCESS := hst ▸ hne
    have hfits := hr.fits
    obtain ⟨v0, h0⟩ := DNS__16BIT_of_lt hbuf (show d + 1 < alen by omega)
    have hdec : rr_decode E abuf alen d owner T_MX C_IN len ARES_SUCCESS = .brk e := by
      have t1 : ¬ (T_MX = T_A) := by decide
      have t2 : ¬ (T_MX = T_CNAME) := by decide
      have t3 : ¬ (T_MX = T_AAAA) := by decide
      have t4 : ¬ (T_MX = T_TXT) := by decide
      have t5 : ¬ (T_MX = T_SOA) := by decide
      have t6 : ¬ (T_MX = T_SRV) := by decide
      have hl : ¬ (len < 2) := by omega
      simp only [rr_decode, t1, t2, t3, t4, t5, t6, and_false, if_false, and_self, if_true,
        decode_MX, hl, h0, ne_eq, hst, hne, not_false_eq_true]
    have hstep := rr_step_of_RRAt hr st rfl
    rw [hdec] at hstep
    exact ⟨_, parse_of_break hf hk hreach hstep hne⟩

/-- C13 as amended, a witness: the expansion of the exchange name of an MX
record returns `ARES_ENOMEM`, and so does the call. -/
theorem expand_error_status_witness :
    ∃ out, ares_parse_any_reply (oomEnv 43) msgMX 50 = .ret ARES_ENOMEM out :=
  expand_error_status (oomEnv 43) msgMX 50 ARES_ENOMEM ⟨29, ARES_SUCCESS, []⟩ Site.mx_exchange
    (by decide) (by decide)
    ⟨⟨1, 0, 0, 29, 0,
        ⟨by decide, by decide, by decide, by decide, by decide, by decide, by decide,
          by decide⟩, by decide, rfl⟩,
      str "example.com", 9, 41,
      ⟨by decide, by decide, by decide, by decide, by decide, by decide, by decide, by decide⟩,
      by decide, by decide⟩

/-! ## The address reads -/

/-- C20 (defect of the code). An A record with RDLENGTH 0 at the end of the
message passes the bounds check of the walker (`RRAt`, the RDATA starts at
offset 41 = `alen`), and the A branch then reads offsets 41 to 44, outside the
buffer; an AAAA record with 4 bytes of RDATA does the same with 16 bytes. When
a record follows, the 4 bytes read are bytes of that record, outside the
RDATA: the value is "192.12.0.1", from the owner pointer `C0 0C` and the type
`00 01` of the next record. -/
theorem address_read_past_rdata :
    RRAt sampleEnv msgEmptyA 41 29 (str "example.com") T_A C_IN 0 41 ∧
      decode_A msgEmptyA 41 41 (str "example.com") = .fault ∧
      ares_parse_any_reply sampleEnv msgEmptyA 41 = .fault ∧
      RRAt sampleEnv msgShortAAAA 45 29 (str "example.com") T_AAAA C_IN 4 41 ∧
      ares_parse_any_reply sampleEnv msgShortAAAA 45 = .fault ∧
      ares_parse_any_reply sampleEnv msgEmptyAthenA 57 =
        .ret ARES_SUCCESS (some
          [⟨str "A", some (str "example.com"), str "192.12.0.1", 10⟩,
           ⟨str "A", some (str "example.com"), str "10.0.0.1", 8⟩]) :=
  ⟨⟨by decide, by decide, by decide, by decide, by decide, by decide, by decide, by decide⟩,
    by decide, by decide,
    ⟨by decide, by decide, by decide, by decide, by decide, by decide, by decide, by decide⟩,
    by decide, by decide⟩

end AnyReply
